import Mathlib

/-!
# AsioClient (DeviceAdapters/SerialManager/AsioClient.h)

A shallow embedding of the `AsioClient` class.  The members of the class are
fields of the structure `AsioClient`; the serial port, the `io_service` and the
logger, which the class only talks to, are recorded next to them as the list of
calls the client made on them.  Every member function is a function on that
structure.  `step` runs a handler as one atomic event; `slice` runs `DoWrite`
and `WriteComplete` in the two parts between which `writeBufferLock_` is free,
so that a call of another thread can fall between them.
-/

namespace SerialManager

/-- A `char`.  The client only stores and forwards it. -/
abbrev Byte := Nat

/-- A `boost::system::error_code`, as far as the client looks at it: `value()`,
`message()` and whether it compares equal to
`boost::asio::error::operation_aborted`.  The empty code has value `0`. -/
structure ErrorCode where
  value : Int
  message : String
  aborted : Bool
deriving DecidableEq, Repr

/-- The code in a boolean context (`if (error)`, `!!anError`): `value() != 0`. -/
def ErrorCode.failed (e : ErrorCode) : Bool := e.value != 0

/-- The value `boost::system::error_code()`. -/
def error_code : ErrorCode := { value := 0, message := "", aborted := false }

/-- The options the constructor passes to `set_option`; the enumerations
`flow_control::type`, `parity::type` and `stop_bits::type` are kept as the
integer value of the enumerator. -/
inductive SerialOption where
  | baud_rate (rate : Nat)
  | flow_control (t : Int)
  | parity (t : Int)
  | stop_bits (t : Int)
  | character_size (bits : Nat)
deriving DecidableEq, Repr

/-- What `io_service_.post` is given: `boost::bind(&AsioClient::DoWrite, this, msg)`
or `boost::bind(&AsioClient::DoClose, this, error)`. -/
inductive Handler where
  | DoWrite (msg : Byte)
  | DoClose (error : ErrorCode)
deriving DecidableEq, Repr

/-- The object.  `active_`, `read_msg_`, `write_msgs_` and `data_read_` are the
data members; the other fields record what the client did to its collaborators:
`posted` is the queue of handlers given to `io_service_.post` and not yet run,
`is_open`, `set_option_calls`, `async_read_calls`, `reads_outstanding`,
`async_write_calls`, `writes_outstanding` and `close_calls` belong to
`serialPortImplementation_`, and `log` is the list of `LogMessage` calls on
`pSerialPortAdapter_`.  An entry of `async_write_calls` is the byte at
`&write_msgs_.front()` when `async_write` was called, `none` when the deque was
empty at that moment. -/
structure AsioClient where
  active_ : Bool
  read_msg_ : List Byte
  write_msgs_ : List Byte
  data_read_ : List Byte
  posted : List Handler
  is_open : Bool
  set_option_calls : List SerialOption
  async_read_calls : Nat
  reads_outstanding : Nat
  async_write_calls : List (Option Byte)
  writes_outstanding : Nat
  close_calls : Nat
  log : List (String × Bool)
deriving DecidableEq, Repr

namespace AsioClient

/-- The constant `max_read_length`. -/
def max_read_length : Nat := 512

/-- The call `pSerialPortAdapter_->LogMessage(msg, debugOnly)`. -/
def LogMessage (s : AsioClient) (msg : String) (debugOnly : Bool) : AsioClient :=
  { s with log := s.log ++ [(msg, debugOnly)] }

/-- The conversion `boost::lexical_cast<std::string,int>`. -/
def lexical_cast (n : Int) : String := toString n

/-- An `unsigned int` converted to `int`, as happens to `baud` on its way
into `lexical_cast<std::string,int>`. -/
def unsignedToInt (n : Nat) : Int :=
  if n % 2 ^ 32 < 2 ^ 31 then (n % 2 ^ 32 : Nat) else ((n % 2 ^ 32 : Nat) : Int) - 2 ^ 32

/-- The call `serialPortImplementation_.set_option(option, anError)`; `port`
is the answer of the serial port, which becomes the new value of `anError`. -/
def setOption (s : AsioClient) (port : SerialOption → ErrorCode) (option : SerialOption) :
    AsioClient × ErrorCode :=
  ({ s with set_option_calls := s.set_option_calls ++ [option] }, port option)

/-- The text logged when an option could not be set. -/
def optionError (what : String) (anError : ErrorCode) : String :=
  "error setting " ++ what ++ " in AsioClient(): " ++ lexical_cast anError.value ++ " " ++
    anError.message

/-- `ReadStart`: one call of `async_read_some`. -/
def ReadStart (s : AsioClient) : AsioClient :=
  { s with async_read_calls := s.async_read_calls + 1,
           reads_outstanding := s.reads_outstanding + 1 }

/-- The object after the member initialisers `active_(true)`, ... have run;
`opened` is whether the serial port could be opened. -/
def members (opened : Bool) : AsioClient :=
  { active_ := true
    read_msg_ := List.replicate max_read_length 0
    write_msgs_ := []
    data_read_ := []
    posted := []
    is_open := opened
    set_option_calls := []
    async_read_calls := 0
    reads_outstanding := 0
    async_write_calls := []
    writes_outstanding := 0
    close_calls := 0
    log := [] }

/-- The constructor `AsioClient::AsioClient`.  `opened` is the answer of
`serialPortImplementation_.is_open()` and `port` the answer of the serial port
to each `set_option`.  The scope `do ... while(bfalse_s)` runs once, `bfalse_s`
being false. -/
def ctor (opened : Bool) (port : SerialOption → ErrorCode) (baud : Nat) (device : String)
    (flow parity stopBits : Int) : AsioClient :=
  let s := members opened
  if !s.is_open then
    LogMessage s "Failed to open serial port" false
  else
    let s := LogMessage s
      ("Attempting to set baud of " ++ device ++ " to " ++ lexical_cast (unsignedToInt baud)) true
    let (s, anError) := setOption s port (SerialOption.baud_rate baud)
    let s := if anError.failed then LogMessage s (optionError "baud" anError) false else s
    let s := LogMessage s
      ("Attempting to set flow of " ++ device ++ " to " ++ lexical_cast flow) true
    let (s, anError) := setOption s port (SerialOption.flow_control flow)
    let s := if anError.failed then LogMessage s (optionError "flow_control" anError) false else s
    let s := LogMessage s
      ("Attempting to set parity of " ++ device ++ " to " ++ lexical_cast parity) true
    let (s, anError) := setOption s port (SerialOption.parity parity)
    let s := if anError.failed then LogMessage s (optionError "parity" anError) false else s
    let s := LogMessage s
      ("Attempting to set stopBits of " ++ device ++ " to " ++ lexical_cast stopBits) true
    let (s, anError) := setOption s port (SerialOption.stop_bits stopBits)
    let s := if anError.failed then LogMessage s (optionError "stop_bits" anError) false else s
    let (s, anError) := setOption s port (SerialOption.character_size 8)
    let s := if anError.failed then LogMessage s (optionError "character_size" anError) false else s
    ReadStart s

/-- `WriteOneCharacter`: posts `DoWrite` to the `io_service`.  `cz` is
`sizeof(msg)`, which is 1 for a `char`. -/
def WriteOneCharacter (s : AsioClient) (msg : Byte) : AsioClient :=
  let cz : Nat := 1
  if 1 ≠ cz then s
  else { s with posted := s.posted ++ [Handler.DoWrite msg] }

/-- `Close`: posts `DoClose` with the empty error code, when active. -/
def Close (s : AsioClient) : AsioClient :=
  if s.active_ then { s with posted := s.posted ++ [Handler.DoClose error_code] } else s

/-- `Aktive`. -/
def Aktive (s : AsioClient) : Bool := s.active_

/-- `Purge`. -/
def Purge (s : AsioClient) : AsioClient :=
  let s := { s with data_read_ := [] }
  { s with write_msgs_ := [] }

/-- `ReadData`: the returned vector and the object afterwards. -/
def ReadData (s : AsioClient) : List Byte × AsioClient :=
  let retVal : List Byte := []
  if 0 < s.data_read_.length then
    (s.data_read_ ++ retVal, { s with data_read_ := [] })
  else (retVal, s)

/-- `ReadOneCharacter`: the return value, the value of the reference argument
`msg` afterwards, and the object afterwards. -/
def ReadOneCharacter (s : AsioClient) (msg : Byte) : (Bool × Byte) × AsioClient :=
  match s.data_read_ with
  | front :: rest => ((true, front), { s with data_read_ := rest })
  | [] => ((false, msg), s)

/-- `DoClose`. -/
def DoClose (s : AsioClient) (error : ErrorCode) : AsioClient :=
  if error.aborted then s
  else
    let s := if error.failed then LogMessage s error.message false else s
    let s := if s.active_ then { s with close_calls := s.close_calls + 1, is_open := false } else s
    { s with active_ := false }

/-- The loop of `ReadComplete`: `data_read_.push_back(read_msg_[ib])` for
`ib` from `0` up to `bytes_transferred`. -/
def pushReadBytes (read_msg_ : List Byte) (bytes_transferred : Nat) (data_read_ : List Byte) :
    List Byte :=
  (List.range bytes_transferred).foldl (fun d ib => d ++ [read_msg_.getD ib 0]) data_read_

/-- `ReadComplete`. -/
def ReadComplete (s : AsioClient) (error : ErrorCode) (bytes_transferred : Nat) : AsioClient :=
  if !error.failed then
    let s := { s with data_read_ := pushReadBytes s.read_msg_ bytes_transferred s.data_read_ }
    ReadStart s
  else DoClose s error

/-- `WriteStart`: one call of `async_write` on the byte at the front of
`write_msgs_`. -/
def WriteStart (s : AsioClient) : AsioClient :=
  { s with async_write_calls := s.async_write_calls ++ [s.write_msgs_.head?],
           writes_outstanding := s.writes_outstanding + 1 }

/-- `DoWrite`. -/
def DoWrite (s : AsioClient) (msg : Byte) : AsioClient :=
  let write_in_progress := !s.write_msgs_.isEmpty
  let s := { s with write_msgs_ := s.write_msgs_ ++ [msg] }
  if !write_in_progress then WriteStart s else s

/-- `WriteComplete`. -/
def WriteComplete (s : AsioClient) (error : ErrorCode) : AsioClient :=
  if !error.failed then
    let s := if 0 < s.write_msgs_.length then { s with write_msgs_ := s.write_msgs_.tail } else s
    let anythingThere := !s.write_msgs_.isEmpty
    if anythingThere then WriteStart s else s
  else
    let s := LogMessage s "error in WriteComplete: " true
    DoClose s error

/-- The `io_service` runs a posted handler. -/
def runHandler (s : AsioClient) : Handler → AsioClient
  | Handler.DoWrite msg => DoWrite s msg
  | Handler.DoClose error => DoClose s error

/-- What can happen to the object: a call of a public member function by a
caller, the `io_service` running the oldest posted handler, and the serial port
completing a read (it has put `data` at the start of `read_msg_`) or a write. -/
inductive Event where
  | WriteOneCharacter (msg : Byte)
  | Close
  | Purge
  | ReadData
  | ReadOneCharacter (msg : Byte)
  | runPosted
  | readCompletion (error : ErrorCode) (data : List Byte)
  | writeCompletion (error : ErrorCode)
deriving DecidableEq, Repr

/-- What a call gives back to its caller. -/
inductive Output where
  | nothing
  | vector (retVal : List Byte)
  | character (retval : Bool) (msg : Byte)
deriving DecidableEq, Repr

/-- The serial port stores the received bytes at the start of `read_msg_`,
an array of `max_read_length` characters. -/
def receive (s : AsioClient) (data : List Byte) : AsioClient :=
  { s with read_msg_ := (data ++ s.read_msg_.drop data.length).take max_read_length }

/-- One event, run atomically. -/
def step (s : AsioClient) : Event → AsioClient × Output
  | Event.WriteOneCharacter msg => (WriteOneCharacter s msg, Output.nothing)
  | Event.Close => (Close s, Output.nothing)
  | Event.Purge => (Purge s, Output.nothing)
  | Event.ReadData => ((ReadData s).2, Output.vector (ReadData s).1)
  | Event.ReadOneCharacter msg =>
      ((ReadOneCharacter s msg).2,
        Output.character (ReadOneCharacter s msg).1.1 (ReadOneCharacter s msg).1.2)
  | Event.runPosted =>
      match s.posted with
      | [] => (s, Output.nothing)
      | h :: rest => (runHandler { s with posted := rest } h, Output.nothing)
  | Event.readCompletion error data =>
      (ReadComplete { receive s data with reads_outstanding := s.reads_outstanding - 1 }
        error data.length, Output.nothing)
  | Event.writeCompletion error =>
      (WriteComplete { s with writes_outstanding := s.writes_outstanding - 1 } error,
        Output.nothing)

/-- The object after a sequence of events. -/
def run (s : AsioClient) : List Event → AsioClient
  | [] => s
  | e :: es => run (step s e).1 es

/-- What the calls of a sequence of events returned, in order. -/
def outputs (s : AsioClient) : List Event → List Output
  | [] => []
  | e :: es => (step s e).2 :: outputs (step s e).1 es

/-- An event can happen: the `io_service` has a handler to run, a completion
answers an operation that is outstanding, and a read delivers at most
`max_read_length` bytes. -/
def enabled (s : AsioClient) : Event → Bool
  | Event.runPosted => !s.posted.isEmpty
  | Event.readCompletion _ data =>
      decide (0 < s.reads_outstanding) && decide (data.length ≤ max_read_length)
  | Event.writeCompletion _ => decide (0 < s.writes_outstanding)
  | _ => true

/-- Every event of the sequence can happen when its turn comes. -/
def feasible (s : AsioClient) : List Event → Bool
  | [] => true
  | e :: es => enabled s e && feasible (step s e).1 es

/-- The bytes passed to `WriteOneCharacter` in a sequence of events, in order. -/
def submitted : List Event → List Byte
  | [] => []
  | Event.WriteOneCharacter msg :: es => msg :: submitted es
  | _ :: es => submitted es

/-- The bytes of the posted `DoWrite` handlers, in order. -/
def pendingBytes : List Handler → List Byte
  | [] => []
  | Handler.DoWrite msg :: hs => msg :: pendingBytes hs
  | Handler.DoClose _ :: hs => pendingBytes hs

/-- An event other than `Purge` and other than a write completion with an error. -/
def noPurgeNoWriteError : Event → Bool
  | Event.Purge => false
  | Event.writeCompletion error => !error.failed
  | _ => true

/-- The write pipeline is in step with the bytes `enq` submitted so far: some
bytes are done, the next ones are in `write_msgs_`, the last ones are still
posted; `async_write` was called for the done bytes and for the front of
`write_msgs_`, and that front byte is the one write outstanding. -/
def WriteInv (s : AsioClient) (enq : List Byte) : Prop :=
  ∃ done : List Byte, enq = done ++ s.write_msgs_ ++ pendingBytes s.posted ∧
    s.async_write_calls = (done ++ s.write_msgs_.take 1).map some ∧
    s.writes_outstanding = (s.write_msgs_.take 1).length

/-- The bytes the serial port delivered with the read completions of a
sequence of events, in order. -/
def delivered : List Event → List Byte
  | [] => []
  | Event.readCompletion _ data :: es => data ++ delivered es
  | _ :: es => delivered es

/-- The vectors returned by the `ReadData` calls, one after the other. -/
def returned : List Output → List Byte
  | [] => []
  | Output.vector retVal :: os => retVal ++ returned os
  | _ :: os => returned os

/-- An event other than `Purge` and `ReadOneCharacter`; a read completion is
successful and delivers at most `max_read_length` bytes. -/
def readStream : Event → Bool
  | Event.Purge => false
  | Event.ReadOneCharacter _ => false
  | Event.readCompletion error data => !error.failed && decide (data.length ≤ max_read_length)
  | _ => true

/-- A client that was opened, received `X`, and was then closed by `Close`:
it is inactive and `X` is still in `data_read_`. -/
def closedWithData : AsioClient :=
  run (ctor true (fun _ => error_code) 9600 "COM1" 0 0 0)
    [Event.readCompletion error_code [88], Event.Close, Event.runPosted]

/-- A client whose serial port could not be opened. -/
def notOpened : AsioClient :=
  ctor false (fun _ => error_code) 9600 "COM1" 0 0 0

/-- After a `Purge`: `base` are the calls of `async_write` made before it and
`enq` the bytes that were posted at that moment or were submitted later.  The
bytes written since, `sent`, are taken in order from the part of `enq` that
has reached the front of `write_msgs_`. -/
def PurgeInv (base : List (Option Byte)) (s : AsioClient) (enq : List Byte) : Prop :=
  ∃ done sent : List Byte, enq = done ++ s.write_msgs_ ++ pendingBytes s.posted ∧
    s.async_write_calls = base ++ sent.map some ∧
    List.Sublist sent (done ++ s.write_msgs_.take 1)

/-- The five options of the constructor with the name each has in the log,
in the order in which they are set. -/
def ctorOptions (baud : Nat) (flow parity stopBits : Int) : List (String × SerialOption) :=
  [("baud", SerialOption.baud_rate baud),
   ("flow_control", SerialOption.flow_control flow),
   ("parity", SerialOption.parity parity),
   ("stop_bits", SerialOption.stop_bits stopBits),
   ("character_size", SerialOption.character_size 8)]

/-- The client of the scenario: port opened, every option accepted. -/
def opened9600 : AsioClient :=
  ctor true (fun _ => error_code) 9600 "COM1" 0 0 0

/-- `A` is being written, `Purge` is called, then `B` is submitted and its
handler runs. -/
def purgeDuringWrite : List Event :=
  [Event.WriteOneCharacter 65, Event.runPosted, Event.Purge, Event.WriteOneCharacter 66,
    Event.runPosted]

/-- One option of the constructor: the call of `set_option` and the message
logged when it failed. -/
def setAndReport (port : SerialOption → ErrorCode) (what : String) (option : SerialOption)
    (s : AsioClient) : AsioClient :=
  if (setOption s port option).2.failed then
    LogMessage (setOption s port option).1 (optionError what (setOption s port option).2) false
  else (setOption s port option).1

/-- A fault of the serial port: a non-empty error that is not
operation-aborted. -/
def ioError : ErrorCode := { value := 5, message := "Input/output error", aborted := false }

/-- Every read completion of the event is successful. -/
def readsSucceed : Event → Bool
  | Event.readCompletion error _ => !error.failed
  | _ => true

/-- The part of `DoWrite` that runs while it holds `writeBufferLock_`, up to
`delete pg`: the value of `write_in_progress` and the object. -/
def DoWriteGuarded (s : AsioClient) (msg : Byte) : Bool × AsioClient :=
  let write_in_progress := !s.write_msgs_.isEmpty
  (write_in_progress, { s with write_msgs_ := s.write_msgs_ ++ [msg] })

/-- The part of a `WriteComplete` without error that runs while it holds
`writeBufferLock_`, up to `delete pg`: the value of `anythingThere` and the
object. -/
def WriteCompleteGuarded (s : AsioClient) : Bool × AsioClient :=
  let s := if 0 < s.write_msgs_.length then { s with write_msgs_ := s.write_msgs_.tail } else s
  (!s.write_msgs_.isEmpty, s)

/-- The object together with where the `io_service` thread is:
`writeStartDue` says that it is inside `DoWrite` or `WriteComplete`, has
released `writeBufferLock_`, and will call `WriteStart` next. -/
structure Service where
  client : AsioClient
  writeStartDue : Bool
deriving DecidableEq, Repr

/-- The events that are calls by a caller thread. -/
def isCall : Event → Bool
  | Event.WriteOneCharacter _ => true
  | Event.Close => true
  | Event.Purge => true
  | Event.ReadData => true
  | Event.ReadOneCharacter _ => true
  | _ => false

/-- What runs without another thread in between: a call by a caller thread;
the `io_service` thread running the handler of an event up to the point where
`DoWrite` or `WriteComplete` has released `writeBufferLock_`; and the
`io_service` thread making the call of `WriteStart` that is due. -/
inductive Slice where
  | call (e : Event)
  | enter (e : Event)
  | WriteStart
deriving DecidableEq, Repr

/-- One slice.  A handler is entered only when the `io_service` thread is not
inside another one. -/
def slice (t : Service) : Slice → Service
  | Slice.call e => if isCall e then { t with client := (step t.client e).1 } else t
  | Slice.enter e =>
      if t.writeStartDue then t
      else
        match e with
        | Event.runPosted =>
            match t.client.posted with
            | Handler.DoWrite msg :: rest =>
                { client := (DoWriteGuarded { t.client with posted := rest } msg).2,
                  writeStartDue := !(DoWriteGuarded { t.client with posted := rest } msg).1 }
            | _ => { client := (step t.client Event.runPosted).1, writeStartDue := false }
        | Event.writeCompletion error =>
            if !error.failed then
              { client := (WriteCompleteGuarded
                  { t.client with writes_outstanding := t.client.writes_outstanding - 1 }).2,
                writeStartDue := (WriteCompleteGuarded
                  { t.client with writes_outstanding := t.client.writes_outstanding - 1 }).1 }
            else
              { client := (step t.client (Event.writeCompletion error)).1,
                writeStartDue := false }
        | Event.readCompletion error data =>
            { client := (step t.client (Event.readCompletion error data)).1,
              writeStartDue := false }
        | _ => t
  | Slice.WriteStart =>
      if t.writeStartDue then { client := WriteStart t.client, writeStartDue := false } else t

/-- The object and the `io_service` thread after a sequence of slices. -/
def slices (t : Service) : List Slice → Service
  | [] => t
  | x :: xs => slices (slice t x) xs

/-- `A` is submitted and the `io_service` thread runs `DoWrite` up to the
release of `writeBufferLock_`. -/
def writeStartPending : List Slice :=
  [Slice.call (Event.WriteOneCharacter 65), Slice.enter Event.runPosted]

/-! ## Lemmas on the write pipeline -/

theorem pendingBytes_append (p q : List Handler) :
    pendingBytes (p ++ q) = pendingBytes p ++ pendingBytes q := by
  induction p with
  | nil => rfl
  | cons h t ih => cases h <;> simp [pendingBytes, ih]

theorem submitted_cons (e : Event) (es : List Event) :
    submitted (e :: es) = submitted [e] ++ submitted es := by
  cases e <;> simp [submitted]

theorem DoClose_eq (s : AsioClient) (error : ErrorCode) :
    DoClose s error =
      if error.aborted then s
      else { s with
        active_ := false
        is_open := if s.active_ then false else s.is_open
        close_calls := if s.active_ then s.close_calls + 1 else s.close_calls
        log := if error.failed then s.log ++ [(error.message, false)] else s.log } := by
  simp only [DoClose, LogMessage]
  split_ifs <;> simp_all

theorem writeInv_congr (s t : AsioClient) (enq : List Byte)
    (h1 : t.write_msgs_ = s.write_msgs_) (h2 : t.posted = s.posted)
    (h3 : t.async_write_calls = s.async_write_calls)
    (h4 : t.writes_outstanding = s.writes_outstanding) (h : WriteInv s enq) :
    WriteInv t enq := by
  unfold WriteInv at *
  rw [h1, h2, h3, h4]
  exact h

theorem writeInv_DoClose (s : AsioClient) (error : ErrorCode) (enq : List Byte)
    (h : WriteInv s enq) : WriteInv (DoClose s error) enq := by
  apply writeInv_congr s _ enq _ _ _ _ h <;> rw [DoClose_eq] <;> split_ifs <;> rfl

theorem writeInv_step (s : AsioClient) (e : Event) (enq : List Byte)
    (he : noPurgeNoWriteError e = true) (h : WriteInv s enq) :
    WriteInv (step s e).1 (enq ++ submitted [e]) := by
  obtain ⟨done, h1, h2, h3⟩ := h
  cases e with
  | WriteOneCharacter msg =>
    refine ⟨done, ?_, h2, h3⟩
    simp [step, WriteOneCharacter, submitted, pendingBytes_append, pendingBytes, h1]
  | Close =>
    refine ⟨done, ?_, ?_, ?_⟩ <;>
      simp only [step, Close, submitted, List.append_nil] <;> split_ifs <;>
      simp [pendingBytes_append, pendingBytes, h1, h2, h3]
  | Purge => simp [noPurgeNoWriteError] at he
  | ReadData =>
    refine ⟨done, ?_, ?_, ?_⟩ <;>
      simp only [step, ReadData, submitted, List.append_nil] <;> split_ifs <;>
      simp [h1, h2, h3]
  | ReadOneCharacter msg =>
    refine ⟨done, ?_, ?_, ?_⟩ <;>
      simp only [step, ReadOneCharacter, submitted, List.append_nil] <;> split <;>
      simp [h1, h2, h3]
  | runPosted =>
    simp only [step, submitted, List.append_nil]
    cases hp : s.posted with
    | nil => exact ⟨done, h1, h2, h3⟩
    | cons hd rest =>
      cases hd with
      | DoClose error =>
        apply writeInv_DoClose
        exact ⟨done, by simpa [hp, pendingBytes] using h1, h2, h3⟩
      | DoWrite msg =>
        cases hq : s.write_msgs_ with
        | nil =>
          refine ⟨done, ?_, ?_, ?_⟩ <;>
            simp [runHandler, DoWrite, WriteStart, hq, hp, pendingBytes, h1, h2, h3]
        | cons b t =>
          refine ⟨done, ?_, ?_, ?_⟩ <;>
            simp [runHandler, DoWrite, WriteStart, hq, hp, pendingBytes, h1, h2, h3]
  | readCompletion error data =>
    simp only [step, submitted, List.append_nil, ReadComplete]
    split_ifs
    · exact ⟨done, h1, h2, h3⟩
    · apply writeInv_DoClose
      exact ⟨done, h1, h2, h3⟩
  | writeCompletion error =>
    have hok : error.failed = false := by simpa [noPurgeNoWriteError] using he
    simp only [step, submitted, List.append_nil]
    cases hq : s.write_msgs_ with
    | nil =>
      refine ⟨done, ?_, ?_, ?_⟩ <;>
        simp [WriteComplete, WriteStart, hok, hq, h1, h2, h3]
    | cons b t =>
      cases t with
      | nil =>
        refine ⟨done ++ [b], ?_, ?_, ?_⟩ <;>
          simp [WriteComplete, WriteStart, hok, hq, h1, h2, h3]
      | cons c u =>
        refine ⟨done ++ [b], ?_, ?_, ?_⟩ <;>
          simp [WriteComplete, WriteStart, hok, hq, h1, h2, h3]

theorem writeInv_run (evs : List Event) :
    ∀ (s : AsioClient) (enq : List Byte), (∀ e ∈ evs, noPurgeNoWriteError e = true) →
      WriteInv s enq → WriteInv (run s evs) (enq ++ submitted evs) := by
  induction evs with
  | nil => intro s enq _ h; simpa [run, submitted] using h
  | cons e es ih =>
    intro s enq hev h
    have h1 := writeInv_step s e enq (hev e (List.mem_cons_self _ _)) h
    have h2 := ih (step s e).1 (enq ++ submitted [e])
      (fun x hx => hev x (List.mem_cons_of_mem _ hx)) h1
    rw [submitted_cons e es, ← List.append_assoc]
    exact h2

/-- The constructor only adds to the log, the options set and the reads
started: everything else is as the member initialisers left it. -/
theorem ctor_members (opened : Bool) (port : SerialOption → ErrorCode) (baud : Nat)
    (device : String) (flow parity stopBits : Int) :
    ∃ (l : List (String × Bool)) (o : List SerialOption) (n : Nat),
      ctor opened port baud device flow parity stopBits =
        { members opened with log := l, set_option_calls := o, async_read_calls := n,
                              reads_outstanding := n } := by
  simp only [ctor, members, setOption, LogMessage, ReadStart]
  split_ifs <;> exact ⟨_, _, _, rfl⟩

theorem writeInv_ctor (opened : Bool) (port : SerialOption → ErrorCode) (baud : Nat)
    (device : String) (flow parity stopBits : Int) :
    WriteInv (ctor opened port baud device flow parity stopBits) [] := by
  obtain ⟨l, o, n, h⟩ := ctor_members opened port baud device flow parity stopBits
  rw [h]
  exact ⟨[], by simp [members, pendingBytes], by simp [members], by simp [members]⟩

theorem run_append (a b : List Event) :
    ∀ s : AsioClient, run s (a ++ b) = run (run s a) b := by
  induction a with
  | nil => intro s; rfl
  | cons e es ih => intro s; exact ih _

theorem feasible_append (a b : List Event) :
    ∀ s : AsioClient, feasible s a = true → feasible (run s a) b = true →
      feasible s (a ++ b) = true := by
  induction a with
  | nil => intro s _ h; exact h
  | cons e es ih =>
    intro s h1 h2
    simp only [feasible, Bool.and_eq_true] at h1
    simp only [List.cons_append, feasible, Bool.and_eq_true]
    exact ⟨h1.1, ih _ h1.2 h2⟩

theorem runHandler_posted (s : AsioClient) (h : Handler) :
    (runHandler s h).posted = s.posted := by
  cases h with
  | DoWrite msg => simp only [runHandler, DoWrite, WriteStart]; split_ifs <;> rfl
  | DoClose error => simp only [runHandler, DoClose_eq]; split_ifs <;> rfl

theorem runHandler_queue_length (s : AsioClient) (h : Handler) :
    (runHandler s h).write_msgs_.length = s.write_msgs_.length + (pendingBytes [h]).length := by
  cases h with
  | DoWrite msg =>
    simp only [runHandler, DoWrite, WriteStart, pendingBytes]
    split_ifs <;> simp
  | DoClose error =>
    simp only [runHandler, DoClose_eq, pendingBytes]
    split_ifs <;> simp

/-- The `io_service` runs every posted handler: all of them can run, none is
left, and the write queue has grown by the bytes of the `DoWrite` handlers. -/
theorem run_all_posted (n : Nat) :
    ∀ (s : AsioClient) (enq : List Byte), s.posted.length = n → WriteInv s enq →
      feasible s (List.replicate n Event.runPosted) = true ∧
      (run s (List.replicate n Event.runPosted)).posted = [] ∧
      WriteInv (run s (List.replicate n Event.runPosted)) enq ∧
      (run s (List.replicate n Event.runPosted)).write_msgs_.length =
        s.write_msgs_.length + (pendingBytes s.posted).length := by
  induction n with
  | zero =>
    intro s enq hn h
    have hp : s.posted = [] := List.length_eq_zero.mp hn
    simp [feasible, run, hp, h, pendingBytes]
  | succ k ih =>
    intro s enq hn h
    cases hp : s.posted with
    | nil => simp [hp] at hn
    | cons hd rest =>
      have hstep : (step s Event.runPosted).1 = runHandler { s with posted := rest } hd := by
        simp [step, hp]
      have hinv : WriteInv (step s Event.runPosted).1 enq := by
        simpa [submitted] using writeInv_step s Event.runPosted enq rfl h
      have hlen : (step s Event.runPosted).1.posted.length = k := by
        rw [hstep, runHandler_posted]
        simpa [hp] using hn
      obtain ⟨f1, f2, f3, f4⟩ := ih (step s Event.runPosted).1 enq hlen hinv
      refine ⟨?_, f2, f3, ?_⟩
      · simp only [List.replicate_succ, feasible, Bool.and_eq_true]
        exact ⟨by simp [enabled, hp], f1⟩
      · simp only [List.replicate_succ, run]
        rw [f4, hstep, runHandler_posted, runHandler_queue_length]
        have : pendingBytes (hd :: rest) = pendingBytes [hd] ++ pendingBytes rest :=
          pendingBytes_append [hd] rest
        simp [this]
        omega

/-- The writes of a queue of `n` bytes complete one after the other: every
completion answers the write outstanding, and the queue ends up empty. -/
theorem complete_all_writes (n : Nat) :
    ∀ (s : AsioClient) (enq : List Byte), s.write_msgs_.length = n → s.posted = [] →
      WriteInv s enq →
      feasible s (List.replicate n (Event.writeCompletion error_code)) = true ∧
      (run s (List.replicate n (Event.writeCompletion error_code))).write_msgs_ = [] ∧
      (run s (List.replicate n (Event.writeCompletion error_code))).posted = [] ∧
      WriteInv (run s (List.replicate n (Event.writeCompletion error_code))) enq := by
  induction n with
  | zero =>
    intro s enq hn hp h
    have hq : s.write_msgs_ = [] := List.length_eq_zero.mp hn
    simp [feasible, run, hq, hp, h]
  | succ k ih =>
    intro s enq hn hp h
    cases hq : s.write_msgs_ with
    | nil => simp [hq] at hn
    | cons b t =>
      have hinv : WriteInv (step s (Event.writeCompletion error_code)).1 enq := by
        simpa [submitted] using
          writeInv_step s (Event.writeCompletion error_code) enq (by decide) h
      have hq2 : (step s (Event.writeCompletion error_code)).1.write_msgs_ = t := by
        cases t <;> simp [step, WriteComplete, WriteStart, error_code, ErrorCode.failed, hq]
      have hp2 : (step s (Event.writeCompletion error_code)).1.posted = [] := by
        cases t <;> simp [step, WriteComplete, WriteStart, error_code, ErrorCode.failed, hq, hp]
      have hlen : (step s (Event.writeCompletion error_code)).1.write_msgs_.length = k := by
        rw [hq2]
        simpa [hq] using hn
      obtain ⟨f1, f2, f3, f4⟩ :=
        ih (step s (Event.writeCompletion error_code)).1 enq hlen hp2 hinv
      obtain ⟨done, _, _, h3⟩ := h
      refine ⟨?_, f2, f3, f4⟩
      simp only [List.replicate_succ, feasible, Bool.and_eq_true]
      exact ⟨by simp [enabled, h3, hq], f1⟩

/-- What remains to happen for the write pipeline to come to rest: the posted
handlers run, then every write of the queue completes. -/
theorem writes_drain (s : AsioClient) (enq : List Byte) (h : WriteInv s enq) :
    ∃ more : List Event,
      (∀ e ∈ more, e = Event.runPosted ∨ e = Event.writeCompletion error_code) ∧
      feasible s more = true ∧
      (run s more).writes_outstanding = 0 ∧
      (run s more).async_write_calls = enq.map some := by
  obtain ⟨a1, a2, a3, _⟩ := run_all_posted s.posted.length s enq rfl h
  obtain ⟨b1, b2, b3, b4⟩ :=
    complete_all_writes _ (run s (List.replicate s.posted.length Event.runPosted)) enq rfl a2 a3
  refine ⟨List.replicate s.posted.length Event.runPosted ++
      List.replicate (run s (List.replicate s.posted.length Event.runPosted)).write_msgs_.length
        (Event.writeCompletion error_code), ?_, feasible_append _ _ s a1 b1, ?_, ?_⟩
  · intro e he
    rcases List.mem_append.mp he with h1 | h1
    · exact Or.inl (List.eq_of_mem_replicate h1)
    · exact Or.inr (List.eq_of_mem_replicate h1)
  · rw [run_append]
    obtain ⟨done, _, _, h3⟩ := b4
    rw [h3, b2]
    rfl
  · rw [run_append]
    obtain ⟨done, h1, h2, _⟩ := b4
    rw [h2, h1, b2, b3]
    simp [pendingBytes]

/-! ## Lemmas on the read pipeline -/

theorem pushReadBytes_eq (m : List Byte) (n : Nat) (d : List Byte) :
    pushReadBytes m n d = d ++ (List.range n).map (fun ib => m.getD ib 0) := by
  unfold pushReadBytes
  induction n with
  | zero => simp
  | succ k ih => rw [List.range_succ, List.foldl_append, ih]; simp

theorem range_map_getD (data r : List Byte) (c : Nat) (hc : data.length ≤ c) :
    (List.range data.length).map (fun ib => ((data ++ r).take c).getD ib 0) = data := by
  apply List.ext_getElem
  · simp
  · intro i h1 h2
    have hi : i < data.length := h2
    have hi2 : i < c := Nat.lt_of_lt_of_le hi hc
    simp [List.getD_eq_getElem?_getD, List.getElem?_take, hi2, List.getElem?_append_left, hi]

theorem ReadComplete_data_read (s : AsioClient) (error : ErrorCode) (data : List Byte)
    (hok : error.failed = false) (hlen : data.length ≤ max_read_length) :
    (ReadComplete { receive s data with reads_outstanding := s.reads_outstanding - 1 }
      error data.length).data_read_ = s.data_read_ ++ data := by
  have h := range_map_getD data (s.read_msg_.drop data.length) max_read_length hlen
  simp [ReadComplete, hok, ReadStart, receive, pushReadBytes_eq]
  simpa using h

theorem DoWrite_data_read (s : AsioClient) (msg : Byte) :
    (DoWrite s msg).data_read_ = s.data_read_ := by
  simp only [DoWrite, WriteStart]
  split_ifs <;> rfl

theorem DoClose_data_read (s : AsioClient) (error : ErrorCode) :
    (DoClose s error).data_read_ = s.data_read_ := by
  rw [DoClose_eq]
  split_ifs <;> rfl

theorem WriteComplete_data_read (s : AsioClient) (error : ErrorCode) :
    (WriteComplete s error).data_read_ = s.data_read_ := by
  simp only [WriteComplete, WriteStart, LogMessage, DoClose_eq]
  split_ifs <;> rfl

theorem read_step (s : AsioClient) (e : Event) (he : readStream e = true) :
    returned [(step s e).2] ++ (step s e).1.data_read_ = s.data_read_ ++ delivered [e] := by
  cases e with
  | WriteOneCharacter msg => simp [step, WriteOneCharacter, returned, delivered]
  | Close => simp only [step, Close]; split_ifs <;> simp [returned, delivered]
  | Purge => simp [readStream] at he
  | ReadData =>
    simp only [step, ReadData, returned, delivered]
    split_ifs with h
    · simp
    · have : s.data_read_ = [] := by
        cases hd : s.data_read_ with
        | nil => rfl
        | cons b t => simp [hd] at h
      simp [this]
  | ReadOneCharacter msg => simp [readStream] at he
  | runPosted =>
    simp only [step]
    cases hp : s.posted with
    | nil => simp [returned, delivered]
    | cons hd rest =>
      cases hd <;> simp [runHandler, DoWrite_data_read, DoClose_data_read, returned, delivered]
  | readCompletion error data =>
    simp only [readStream, Bool.and_eq_true, Bool.not_eq_true', decide_eq_true_eq] at he
    simp only [step, returned, delivered, List.nil_append, List.append_nil]
    exact ReadComplete_data_read s error data he.1 he.2
  | writeCompletion error =>
    simp [step, WriteComplete_data_read, returned, delivered]

theorem delivered_cons (e : Event) (es : List Event) :
    delivered (e :: es) = delivered [e] ++ delivered es := by
  cases e <;> simp [delivered]

theorem returned_cons (o : Output) (os : List Output) :
    returned (o :: os) = returned [o] ++ returned os := by
  cases o <;> simp [returned]

theorem read_run (evs : List Event) :
    ∀ s : AsioClient, (∀ e ∈ evs, readStream e = true) →
      returned (outputs s evs) ++ (run s evs).data_read_ = s.data_read_ ++ delivered evs := by
  induction evs with
  | nil => intro s _; simp [outputs, returned, run, delivered]
  | cons e es ih =>
    intro s hev
    have h1 := read_step s e (hev e (List.mem_cons_self _ _))
    have h2 := ih (step s e).1 (fun x hx => hev x (List.mem_cons_of_mem _ hx))
    rw [delivered_cons e es, ← List.append_assoc, ← h1]
    simp only [outputs, run]
    rw [returned_cons, List.append_assoc, h2, List.append_assoc]

theorem ReadData_twice (s : AsioClient) : (ReadData (ReadData s).2).1 = [] := by
  simp only [ReadData]
  split_ifs with h1 h2 <;> simp_all

/-- `ReadData` returns everything that is in the read buffer and leaves the
buffer empty. -/
theorem ReadData_eq (s : AsioClient) :
    ReadData s = (s.data_read_, { s with data_read_ := [] }) := by
  cases hd : s.data_read_ with
  | nil =>
    simp only [ReadData, hd, List.length_nil, Nat.lt_irrefl, if_false]
    congr 1
    cases s
    simp_all
  | cons b t => simp [ReadData, hd]

theorem outputs_append (a b : List Event) :
    ∀ s : AsioClient, outputs s (a ++ b) = outputs s a ++ outputs (run s a) b := by
  induction a with
  | nil => intro s; rfl
  | cons e es ih =>
    intro s
    show (step s e).2 :: outputs (step s e).1 (es ++ b) =
      (step s e).2 :: outputs (step s e).1 es ++ outputs (run (step s e).1 es) b
    rw [ih]
    rfl

/-! ## Lemmas on the close transition -/

theorem DoClose_lifecycle (s : AsioClient) (error : ErrorCode) :
    ((DoClose s error).active_ = s.active_ ∧ (DoClose s error).close_calls = s.close_calls) ∨
    ((DoClose s error).active_ = false ∧
      (DoClose s error).close_calls = s.close_calls + (if s.active_ then 1 else 0)) := by
  rw [DoClose_eq]
  split_ifs <;> simp_all

theorem step_lifecycle (s : AsioClient) (e : Event) :
    ((step s e).1.active_ = s.active_ ∧ (step s e).1.close_calls = s.close_calls) ∨
    ((step s e).1.active_ = false ∧
      (step s e).1.close_calls = s.close_calls + (if s.active_ then 1 else 0)) := by
  cases e with
  | WriteOneCharacter msg => left; simp [step, WriteOneCharacter]
  | Close => left; simp only [step, Close]; split_ifs <;> simp
  | Purge => left; simp [step, Purge]
  | ReadData => left; simp only [step, ReadData]; split_ifs <;> simp
  | ReadOneCharacter msg => left; simp only [step, ReadOneCharacter]; split <;> simp
  | runPosted =>
    simp only [step]
    cases hp : s.posted with
    | nil => left; simp
    | cons hd rest =>
      cases hd with
      | DoWrite msg =>
        left
        simp only [runHandler, DoWrite, WriteStart]
        split_ifs <;> simp
      | DoClose error => exact DoClose_lifecycle { s with posted := rest } error
  | readCompletion error data =>
    simp only [step, ReadComplete]
    cases hf : error.failed with
    | false => left; simp [ReadStart, receive]
    | true =>
      simp only [Bool.not_true, Bool.false_eq_true, if_false]
      exact DoClose_lifecycle
        { receive s data with reads_outstanding := s.reads_outstanding - 1 } error
  | writeCompletion error =>
    simp only [step, WriteComplete]
    cases hf : error.failed with
    | false =>
      left
      simp only [Bool.not_false, if_true, WriteStart]
      split_ifs <;> simp
    | true =>
      simp only [Bool.not_true, Bool.false_eq_true, if_false]
      exact DoClose_lifecycle
        (LogMessage { s with writes_outstanding := s.writes_outstanding - 1 }
          "error in WriteComplete: " true) error

theorem step_inactive (s : AsioClient) (e : Event) (h : s.active_ = false) :
    (step s e).1.active_ = false := by
  rcases step_lifecycle s e with ⟨h1, _⟩ | ⟨h1, _⟩
  · rw [h1, h]
  · exact h1

theorem run_inactive (evs : List Event) :
    ∀ s : AsioClient, s.active_ = false → (run s evs).active_ = false := by
  induction evs with
  | nil => intro s h; exact h
  | cons e es ih => intro s h; exact ih _ (step_inactive s e h)

theorem DoClose_inactive (s : AsioClient) (error : ErrorCode) (h : error.aborted = false) :
    (DoClose s error).active_ = false := by
  rw [DoClose_eq, h]
  simp

/-! ## Lemmas on `Purge` -/

theorem purgeInv_congr (base : List (Option Byte)) (s t : AsioClient) (enq : List Byte)
    (h1 : t.write_msgs_ = s.write_msgs_) (h2 : t.posted = s.posted)
    (h3 : t.async_write_calls = s.async_write_calls) (h : PurgeInv base s enq) :
    PurgeInv base t enq := by
  unfold PurgeInv at *
  rw [h1, h2, h3]
  exact h

theorem purgeInv_DoClose (base : List (Option Byte)) (s : AsioClient) (error : ErrorCode)
    (enq : List Byte) (h : PurgeInv base s enq) : PurgeInv base (DoClose s error) enq := by
  apply purgeInv_congr base s _ enq _ _ _ h <;> rw [DoClose_eq] <;> split_ifs <;> rfl

theorem purgeInv_step (base : List (Option Byte)) (s : AsioClient) (e : Event)
    (enq : List Byte) (h : PurgeInv base s enq) :
    PurgeInv base (step s e).1 (enq ++ submitted [e]) := by
  obtain ⟨done, sent, h1, h2, h3⟩ := h
  cases e with
  | WriteOneCharacter msg =>
    refine ⟨done, sent, ?_, h2, h3⟩
    simp [step, WriteOneCharacter, submitted, pendingBytes_append, pendingBytes, h1]
  | Close =>
    simp only [step, Close, submitted, List.append_nil]
    split_ifs
    · exact ⟨done, sent, by simp [pendingBytes_append, pendingBytes, h1], h2, h3⟩
    · exact ⟨done, sent, h1, h2, h3⟩
  | Purge =>
    refine ⟨done ++ s.write_msgs_, sent, ?_, ?_, ?_⟩
    · simp [step, Purge, submitted, h1]
    · simp [step, Purge, h2]
    · simp only [step, Purge, List.take_nil, List.append_nil]
      exact h3.trans ((List.Sublist.refl done).append (List.take_sublist 1 s.write_msgs_))
  | ReadData =>
    simp only [submitted, List.append_nil]
    apply purgeInv_congr base s _ enq _ _ _ ⟨done, sent, h1, h2, h3⟩ <;>
      simp only [step, ReadData] <;> split_ifs <;> rfl
  | ReadOneCharacter msg =>
    simp only [submitted, List.append_nil]
    apply purgeInv_congr base s _ enq _ _ _ ⟨done, sent, h1, h2, h3⟩ <;>
      simp only [step, ReadOneCharacter] <;> split <;> rfl
  | runPosted =>
    simp only [step, submitted, List.append_nil]
    cases hp : s.posted with
    | nil => exact ⟨done, sent, h1, h2, h3⟩
    | cons hd rest =>
      cases hd with
      | DoClose error =>
        apply purgeInv_DoClose
        exact ⟨done, sent, by simpa [hp, pendingBytes] using h1, h2, h3⟩
      | DoWrite msg =>
        cases hq : s.write_msgs_ with
        | nil =>
          refine ⟨done, sent ++ [msg], ?_, ?_, ?_⟩
          · simp [runHandler, DoWrite, WriteStart, hq, hp, pendingBytes, h1]
          · simp [runHandler, DoWrite, WriteStart, hq, h2]
          · simp only [runHandler, DoWrite, WriteStart, hq]
            simp only [hq, List.take_nil, List.append_nil] at h3
            simpa using h3.append (List.Sublist.refl [msg])
        | cons b t =>
          refine ⟨done, sent, ?_, ?_, ?_⟩
          · simp [runHandler, DoWrite, WriteStart, hq, hp, pendingBytes, h1]
          · simp [runHandler, DoWrite, WriteStart, hq, h2]
          · simp only [hq] at h3
            simpa [runHandler, DoWrite, WriteStart, hq] using h3
  | readCompletion error data =>
    simp only [submitted, List.append_nil]
    apply purgeInv_congr base s _ enq _ _ _ ⟨done, sent, h1, h2, h3⟩ <;>
      simp only [step, ReadComplete, ReadStart, receive, DoClose_eq] <;> split_ifs <;> rfl
  | writeCompletion error =>
    simp only [step, submitted, List.append_nil]
    cases hf : error.failed with
    | true =>
      simp only [WriteComplete, hf, Bool.not_true, Bool.false_eq_true, if_false]
      apply purgeInv_DoClose
      exact ⟨done, sent, h1, h2, h3⟩
    | false =>
      cases hq : s.write_msgs_ with
      | nil =>
        refine ⟨done, sent, ?_, ?_, ?_⟩
        · simp [WriteComplete, WriteStart, hf, hq, h1]
        · simp [WriteComplete, WriteStart, hf, hq, h2]
        · simp only [hq] at h3
          simpa [WriteComplete, WriteStart, hf, hq] using h3
      | cons b t =>
        simp only [hq, List.take_succ_cons, List.take_zero] at h3
        cases t with
        | nil =>
          refine ⟨done ++ [b], sent, ?_, ?_, ?_⟩
          · simp [WriteComplete, WriteStart, hf, hq, h1]
          · simp [WriteComplete, WriteStart, hf, hq, h2]
          · simpa [WriteComplete, WriteStart, hf, hq] using h3
        | cons c u =>
          refine ⟨done ++ [b], sent ++ [c], ?_, ?_, ?_⟩
          · simp [WriteComplete, WriteStart, hf, hq, h1]
          · simp [WriteComplete, WriteStart, hf, hq, h2]
          · simpa [WriteComplete, WriteStart, hf, hq] using h3.append (List.Sublist.refl [c])

theorem purgeInv_run (base : List (Option Byte)) (evs : List Event) :
    ∀ (s : AsioClient) (enq : List Byte),
      PurgeInv base s enq → PurgeInv base (run s evs) (enq ++ submitted evs) := by
  induction evs with
  | nil => intro s enq h; simpa [run, submitted] using h
  | cons e es ih =>
    intro s enq h
    have h2 := ih (step s e).1 (enq ++ submitted [e]) (purgeInv_step base s e enq h)
    rw [submitted_cons e es, ← List.append_assoc]
    exact h2

theorem purgeInv_Purge (s : AsioClient) :
    PurgeInv s.async_write_calls (Purge s) (pendingBytes s.posted) :=
  ⟨[], [], by simp [Purge], by simp [Purge], by simp⟩

theorem close_step (s : AsioClient) (e : Event)
    (h : s.close_calls + (if s.active_ then 1 else 0) ≤ 1) :
    (step s e).1.close_calls + (if (step s e).1.active_ then 1 else 0) ≤ 1 := by
  rcases step_lifecycle s e with ⟨h1, h2⟩ | ⟨h1, h2⟩
  · rw [h1, h2]; exact h
  · rw [h1, h2]; simpa using h

theorem close_run (evs : List Event) :
    ∀ s : AsioClient, s.close_calls + (if s.active_ then 1 else 0) ≤ 1 →
      (run s evs).close_calls + (if (run s evs).active_ then 1 else 0) ≤ 1 := by
  induction evs with
  | nil => intro s h; exact h
  | cons e es ih => intro s h; exact ih _ (close_step s e h)

/-! ## Lemmas on the constructor -/

theorem ctor_opened (port : SerialOption → ErrorCode) (baud : Nat) (device : String)
    (flow parity stopBits : Int) :
    ctor true port baud device flow parity stopBits =
      ReadStart
        (setAndReport port "character_size" (SerialOption.character_size 8)
          (setAndReport port "stop_bits" (SerialOption.stop_bits stopBits)
            (LogMessage
              (setAndReport port "parity" (SerialOption.parity parity)
                (LogMessage
                  (setAndReport port "flow_control" (SerialOption.flow_control flow)
                    (LogMessage
                      (setAndReport port "baud" (SerialOption.baud_rate baud)
                        (LogMessage (members true)
                          ("Attempting to set baud of " ++ device ++ " to " ++
                            lexical_cast (unsignedToInt baud)) true))
                      ("Attempting to set flow of " ++ device ++ " to " ++
                        lexical_cast flow) true))
                  ("Attempting to set parity of " ++ device ++ " to " ++
                    lexical_cast parity) true))
              ("Attempting to set stopBits of " ++ device ++ " to " ++
                lexical_cast stopBits) true))) := rfl

theorem setAndReport_calls (port : SerialOption → ErrorCode) (what : String)
    (option : SerialOption) (s : AsioClient) :
    (setAndReport port what option s).set_option_calls = s.set_option_calls ++ [option] := by
  simp only [setAndReport, setOption, LogMessage]
  split_ifs <;> rfl

theorem setAndReport_log (port : SerialOption → ErrorCode) (what : String)
    (option : SerialOption) (s : AsioClient) :
    (setAndReport port what option s).log =
      s.log ++ (if (port option).failed then [(optionError what (port option), false)]
                else []) := by
  simp only [setAndReport, setOption, LogMessage]
  split_ifs <;> simp

theorem setAndReport_rest (port : SerialOption → ErrorCode) (what : String)
    (option : SerialOption) (s : AsioClient) :
    (setAndReport port what option s).async_read_calls = s.async_read_calls ∧
    (setAndReport port what option s).reads_outstanding = s.reads_outstanding ∧
    (setAndReport port what option s).active_ = s.active_ := by
  simp only [setAndReport, setOption, LogMessage]
  split_ifs <;> exact ⟨rfl, rfl, rfl⟩

/-! ## Lemmas on `WriteStart` -/

theorem DoClose_writes (s : AsioClient) (error : ErrorCode) :
    (DoClose s error).async_write_calls = s.async_write_calls := by
  rw [DoClose_eq]
  split_ifs <;> rfl

/-- Whatever the state, an event adds to the calls of `async_write` only
calls made on a byte of the queue. -/
theorem step_writes_defined (s : AsioClient) (e : Event) :
    ∃ l : List Byte, (step s e).1.async_write_calls = s.async_write_calls ++ l.map some := by
  cases e with
  | WriteOneCharacter msg => exact ⟨[], by simp [step, WriteOneCharacter]⟩
  | Close => exact ⟨[], by simp only [step, Close]; split_ifs <;> simp⟩
  | Purge => exact ⟨[], by simp [step, Purge]⟩
  | ReadData => exact ⟨[], by simp only [step, ReadData]; split_ifs <;> simp⟩
  | ReadOneCharacter msg =>
    exact ⟨[], by simp only [step, ReadOneCharacter]; split <;> simp⟩
  | runPosted =>
    simp only [step]
    cases hp : s.posted with
    | nil => exact ⟨[], by simp⟩
    | cons hd rest =>
      cases hd with
      | DoClose error => exact ⟨[], by simp [runHandler, DoClose_writes]⟩
      | DoWrite msg =>
        cases hq : s.write_msgs_ with
        | nil => exact ⟨[msg], by simp [runHandler, DoWrite, WriteStart, hq]⟩
        | cons b t => exact ⟨[], by simp [runHandler, DoWrite, WriteStart, hq]⟩
  | readCompletion error data =>
    refine ⟨[], ?_⟩
    simp only [step, ReadComplete, ReadStart, receive, DoClose_eq]
    split_ifs <;> simp
  | writeCompletion error =>
    simp only [step]
    cases hf : error.failed with
    | true =>
      refine ⟨[], ?_⟩
      simp [WriteComplete, hf, DoClose_writes, LogMessage]
    | false =>
      cases hq : s.write_msgs_ with
      | nil => exact ⟨[], by simp [WriteComplete, WriteStart, hf, hq]⟩
      | cons b t =>
        cases t with
        | nil => exact ⟨[], by simp [WriteComplete, WriteStart, hf, hq]⟩
        | cons c u => exact ⟨[c], by simp [WriteComplete, WriteStart, hf, hq]⟩

theorem run_writes_defined (evs : List Event) :
    ∀ s : AsioClient,
      ∃ l : List Byte, (run s evs).async_write_calls = s.async_write_calls ++ l.map some := by
  induction evs with
  | nil => intro s; exact ⟨[], by simp [run]⟩
  | cons e es ih =>
    intro s
    obtain ⟨l1, h1⟩ := step_writes_defined s e
    obtain ⟨l2, h2⟩ := ih (step s e).1
    exact ⟨l1 ++ l2, by simp only [run]; rw [h2, h1]; simp⟩

/-! ## Lemmas on `ReadStart` -/

theorem range_map_take (m : List Byte) (n : Nat) (h : n ≤ m.length) :
    (List.range n).map (fun ib => m.getD ib 0) = m.take n := by
  apply List.ext_getElem
  · simp [Nat.min_eq_left h]
  · intro i h1 h2
    have hi : i < n := by simpa using h1
    have hm : i < m.length := Nat.lt_of_lt_of_le hi h
    simp [List.getD_eq_getElem?_getD, List.getElem?_eq_getElem hm]

theorem DoClose_reads (s : AsioClient) (error : ErrorCode) :
    (DoClose s error).reads_outstanding = s.reads_outstanding ∧
    (DoClose s error).async_read_calls = s.async_read_calls ∧
    (DoClose s error).read_msg_ = s.read_msg_ := by
  rw [DoClose_eq]
  split_ifs <;> exact ⟨rfl, rfl, rfl⟩

/-- What an event does to the reads: nothing, unless it is a read completion;
a failed one takes the read it answers away, a successful one replaces it by a
new read. -/
theorem step_reads (s : AsioClient) (e : Event) :
    ((∀ error data, e ≠ Event.readCompletion error data) ∧
      (step s e).1.reads_outstanding = s.reads_outstanding ∧
      (step s e).1.async_read_calls = s.async_read_calls ∧
      (step s e).1.read_msg_ = s.read_msg_) ∨
    (∃ error data, e = Event.readCompletion error data ∧ error.failed = true ∧
      (step s e).1.reads_outstanding = s.reads_outstanding - 1 ∧
      (step s e).1.async_read_calls = s.async_read_calls) ∨
    (∃ error data, e = Event.readCompletion error data ∧ error.failed = false ∧
      (step s e).1.reads_outstanding = s.reads_outstanding - 1 + 1 ∧
      (step s e).1.async_read_calls = s.async_read_calls + 1) := by
  cases e with
  | WriteOneCharacter msg => left; simp [step, WriteOneCharacter]
  | Close => left; simp only [step, Close]; split_ifs <;> simp
  | Purge => left; simp [step, Purge]
  | ReadData => left; simp only [step, ReadData]; split_ifs <;> simp
  | ReadOneCharacter msg => left; simp only [step, ReadOneCharacter]; split <;> simp
  | runPosted =>
    left
    simp only [step]
    cases hp : s.posted with
    | nil => simp
    | cons hd rest =>
      cases hd with
      | DoWrite msg =>
        simp only [runHandler, DoWrite, WriteStart]
        split_ifs <;> simp
      | DoClose error =>
        simp only [runHandler]
        obtain ⟨h1, h2, h3⟩ := DoClose_reads { s with posted := rest } error
        simp [h1, h2, h3]
  | readCompletion error data =>
    right
    cases hf : error.failed with
    | true =>
      left
      refine ⟨error, data, rfl, hf, ?_, ?_⟩ <;>
        simp [step, ReadComplete, hf, DoClose_reads, receive]
    | false =>
      right
      refine ⟨error, data, rfl, hf, ?_, ?_⟩ <;>
        simp [step, ReadComplete, hf, ReadStart, receive]
  | writeCompletion error =>
    left
    simp only [step]
    cases hf : error.failed with
    | true => simp [WriteComplete, hf, DoClose_reads, LogMessage]
    | false =>
      simp only [WriteComplete, hf, WriteStart, Bool.not_false, if_true]
      split_ifs <;> simp

theorem step_scratch_length (s : AsioClient) (e : Event)
    (h : s.read_msg_.length = max_read_length) :
    (step s e).1.read_msg_.length = max_read_length := by
  rcases step_reads s e with ⟨_, _, _, h1⟩ | ⟨error, data, he, _, _, _⟩ |
      ⟨error, data, he, _, _, _⟩
  · rw [h1, h]
  · subst he
    have : (step s (Event.readCompletion error data)).1.read_msg_ =
        (data ++ s.read_msg_.drop data.length).take max_read_length := by
      simp only [step, ReadComplete, ReadStart, receive, DoClose_eq]
      split_ifs <;> rfl
    rw [this]
    simp only [List.length_take, List.length_append, List.length_drop, h]
    omega
  · subst he
    have : (step s (Event.readCompletion error data)).1.read_msg_ =
        (data ++ s.read_msg_.drop data.length).take max_read_length := by
      simp only [step, ReadComplete, ReadStart, receive, DoClose_eq]
      split_ifs <;> rfl
    rw [this]
    simp only [List.length_take, List.length_append, List.length_drop, h]
    omega

theorem feasible_split (a b : List Event) :
    ∀ s : AsioClient, feasible s (a ++ b) = true →
      feasible s a = true ∧ feasible (run s a) b = true := by
  induction a with
  | nil => intro s h; exact ⟨rfl, h⟩
  | cons e es ih =>
    intro s h
    simp only [List.cons_append, feasible, Bool.and_eq_true] at h
    obtain ⟨h1, h2⟩ := ih _ h.2
    exact ⟨by simp only [feasible, Bool.and_eq_true]; exact ⟨h.1, h1⟩, h2⟩

/-- While the read completions succeed, one read is outstanding and the
scratch buffer keeps its size. -/
theorem one_read_run (evs : List Event) :
    ∀ s : AsioClient, (∀ e ∈ evs, readsSucceed e = true) → feasible s evs = true →
      s.reads_outstanding = 1 → s.read_msg_.length = max_read_length →
      (run s evs).reads_outstanding = 1 ∧ (run s evs).read_msg_.length = max_read_length := by
  induction evs with
  | nil => intro s _ _ h1 h2; exact ⟨h1, h2⟩
  | cons e es ih =>
    intro s hev hf h1 h2
    simp only [feasible, Bool.and_eq_true] at hf
    have he := hev e (List.mem_cons_self _ _)
    refine ih (step s e).1 (fun x hx => hev x (List.mem_cons_of_mem _ hx)) hf.2 ?_
      (step_scratch_length s e h2)
    rcases step_reads s e with ⟨_, h3, _, _⟩ | ⟨error, data, hx, hfail, _, _⟩ |
        ⟨error, data, _, _, h3, _⟩
    · rw [h3, h1]
    · subst hx
      simp [readsSucceed, hfail] at he
    · rw [h3, h1]

/-- With no read outstanding, no read is started any more. -/
theorem no_read_run (evs : List Event) :
    ∀ s : AsioClient, feasible s evs = true → s.reads_outstanding = 0 →
      (run s evs).reads_outstanding = 0 ∧
      (run s evs).async_read_calls = s.async_read_calls := by
  induction evs with
  | nil => intro s _ h; exact ⟨h, rfl⟩
  | cons e es ih =>
    intro s hf h0
    simp only [feasible, Bool.and_eq_true] at hf
    have hstep : (step s e).1.reads_outstanding = 0 ∧
        (step s e).1.async_read_calls = s.async_read_calls := by
      rcases step_reads s e with ⟨_, h3, h4, _⟩ | ⟨error, data, hx, _, _, _⟩ |
          ⟨error, data, hx, _, _, _⟩
      · exact ⟨by rw [h3, h0], h4⟩
      · subst hx
        simp [enabled, h0] at hf
      · subst hx
        simp [enabled, h0] at hf
    obtain ⟨i1, i2⟩ := ih (step s e).1 hf.2 hstep.1
    exact ⟨i1, by simp only [run]; rw [i2, hstep.2]⟩

/-! ## Lemmas on the slices of a handler -/

/-- `DoWrite` is its guarded part followed by the call of `WriteStart`. -/
theorem DoWrite_slices (s : AsioClient) (msg : Byte) :
    DoWrite s msg =
      if !(DoWriteGuarded s msg).1 then WriteStart (DoWriteGuarded s msg).2
      else (DoWriteGuarded s msg).2 := rfl

/-- A `WriteComplete` without error is its guarded part followed by the call
of `WriteStart`. -/
theorem WriteComplete_slices (s : AsioClient) (error : ErrorCode)
    (h : error.failed = false) :
    WriteComplete s error =
      if (WriteCompleteGuarded s).1 then WriteStart (WriteCompleteGuarded s).2
      else (WriteCompleteGuarded s).2 := by
  simp [WriteComplete, WriteCompleteGuarded, h]

/-- A call is the same in slices and as an event. -/
theorem slice_call (s : AsioClient) (e : Event) (h : isCall e = true) :
    slice { client := s, writeStartDue := false } (Slice.call e) =
      { client := (step s e).1, writeStartDue := false } := by
  simp [slice, h]

/-- When no other thread comes in between, the slices of a handler are the
handler run as one event. -/
theorem slice_handler (s : AsioClient) (e : Event) (h : isCall e = false) :
    slices { client := s, writeStartDue := false } [Slice.enter e, Slice.WriteStart] =
      { client := (step s e).1, writeStartDue := false } := by
  cases e with
  | WriteOneCharacter msg => simp [isCall] at h
  | Close => simp [isCall] at h
  | Purge => simp [isCall] at h
  | ReadData => simp [isCall] at h
  | ReadOneCharacter msg => simp [isCall] at h
  | runPosted =>
    cases hp : s.posted with
    | nil => simp [slices, slice, step, hp]
    | cons hd rest =>
      cases hd with
      | DoClose error => simp [slices, slice, step, hp]
      | DoWrite msg =>
        cases hq : s.write_msgs_ <;>
          simp [slices, slice, step, hp, runHandler, DoWrite, DoWriteGuarded, hq]
  | readCompletion error data => simp [slices, slice]
  | writeCompletion error =>
    cases hf : error.failed with
    | true => simp [slices, slice, hf]
    | false =>
      simp only [slices, slice, step, hf, Bool.not_false, if_true, Bool.false_eq_true,
        if_false]
      rw [WriteComplete_slices _ error hf]
      cases (WriteCompleteGuarded
        { s with writes_outstanding := s.writes_outstanding - 1 }).1 <;> simp

/-! ## The claims -/

/-- C1: from a freshly constructed client, over every sequence of events
without `Purge` and without a failed write completion, the bytes given to
`async_write` are, in order, an initial part of the bytes passed to
`WriteOneCharacter`; every call of `async_write` carries one byte of the queue;
at most one write is outstanding, so none is started before the previous one
completed; when no write is outstanding and no `DoWrite` is still posted, the
bytes written are all the bytes submitted; and that point can always be
reached, by letting the posted handlers run and the writes complete. -/
theorem write_pipeline_fifo (opened : Bool) (port : SerialOption → ErrorCode) (baud : Nat)
    (device : String) (flow parity stopBits : Int) (evs : List Event)
    (hev : ∀ e ∈ evs, noPurgeNoWriteError e = true) :
    (∃ rest : List Byte, ∃ sent : List Byte,
      submitted evs = sent ++ rest ∧
      (run (ctor opened port baud device flow parity stopBits) evs).async_write_calls =
        sent.map some) ∧
    (run (ctor opened port baud device flow parity stopBits) evs).writes_outstanding ≤ 1 ∧
    ((run (ctor opened port baud device flow parity stopBits) evs).writes_outstanding = 0 →
      pendingBytes (run (ctor opened port baud device flow parity stopBits) evs).posted = [] →
      (run (ctor opened port baud device flow parity stopBits) evs).async_write_calls =
        (submitted evs).map some) ∧
    (∃ more : List Event,
      (∀ e ∈ more, e = Event.runPosted ∨ e = Event.writeCompletion error_code) ∧
      feasible (run (ctor opened port baud device flow parity stopBits) evs) more = true ∧
      (run (ctor opened port baud device flow parity stopBits)
        (evs ++ more)).writes_outstanding = 0 ∧
      (run (ctor opened port baud device flow parity stopBits)
        (evs ++ more)).async_write_calls = (submitted evs).map some) := by
  have h := writeInv_run evs _ [] hev
    (writeInv_ctor opened port baud device flow parity stopBits)
  simp only [List.nil_append] at h
  have hd := writes_drain _ _ h
  simp only [← run_append] at hd
  refine ⟨?_, ?_, ?_, hd⟩ <;> clear hd <;> obtain ⟨done, h1, h2, h3⟩ := h <;>
    generalize run (ctor opened port baud device flow parity stopBits) evs = s at h1 h2 h3
  · refine ⟨s.write_msgs_.drop 1 ++ pendingBytes s.posted, done ++ s.write_msgs_.take 1, ?_, h2⟩
    rw [h1]
    simp only [List.append_assoc, List.append_cancel_left_eq]
    rw [← List.append_assoc, List.take_append_drop]
  · rw [h3]
    simp only [List.length_take]
    exact Nat.min_le_left _ _
  · intro h0 hp
    have hq : s.write_msgs_ = [] := by
      cases hq : s.write_msgs_ with
      | nil => rfl
      | cons b t => rw [h3, hq] at h0; simp at h0
    rw [h2, h1, hq, hp]
    simp

/-- C1, on an example: `A` and `B` are submitted, both handlers run and both
writes complete. -/
theorem write_pipeline_fifo_witness :
    (∀ e ∈ [Event.WriteOneCharacter 65, Event.WriteOneCharacter 66, Event.runPosted,
        Event.runPosted, Event.writeCompletion error_code, Event.writeCompletion error_code],
      noPurgeNoWriteError e = true) ∧
    (run (ctor true (fun _ => error_code) 9600 "COM1" 0 0 0)
      [Event.WriteOneCharacter 65, Event.WriteOneCharacter 66, Event.runPosted,
        Event.runPosted, Event.writeCompletion error_code,
        Event.writeCompletion error_code]).async_write_calls = [some 65, some 66] :=
  ⟨by decide,
   (write_pipeline_fifo true (fun _ => error_code) 9600 "COM1" 0 0 0
      [Event.WriteOneCharacter 65, Event.WriteOneCharacter 66, Event.runPosted,
        Event.runPosted, Event.writeCompletion error_code, Event.writeCompletion error_code]
      (by decide)).2.2.1 (by decide) (by decide)⟩

/-- C2: from a freshly constructed client, over every sequence of events
without `Purge` and `ReadOneCharacter` in which every read completion is
successful and delivers at most `max_read_length` bytes, the vectors returned
by `ReadData`, one after the other, followed by what is left in `data_read_`,
are the bytes delivered by the read completions, in order.  A `ReadData`
returns the whole read buffer and leaves it empty: called at the end of the
sequence it returns exactly what is left in `data_read_`, so that the vectors
returned up to and with that call are all the bytes delivered, nothing being
left behind; and a `ReadData` right after a `ReadData` returns the empty
vector. -/
theorem read_stream_partition (opened : Bool) (port : SerialOption → ErrorCode) (baud : Nat)
    (device : String) (flow parity stopBits : Int) (evs : List Event)
    (hev : ∀ e ∈ evs, readStream e = true) :
    returned (outputs (ctor opened port baud device flow parity stopBits) evs) ++
        (run (ctor opened port baud device flow parity stopBits) evs).data_read_ =
      delivered evs ∧
    (∀ s : AsioClient, ReadData s = (s.data_read_, { s with data_read_ := [] })) ∧
    outputs (ctor opened port baud device flow parity stopBits) (evs ++ [Event.ReadData]) =
      outputs (ctor opened port baud device flow parity stopBits) evs ++
        [Output.vector (run (ctor opened port baud device flow parity stopBits) evs).data_read_] ∧
    (run (ctor opened port baud device flow parity stopBits)
      (evs ++ [Event.ReadData])).data_read_ = [] ∧
    returned (outputs (ctor opened port baud device flow parity stopBits)
      (evs ++ [Event.ReadData])) = delivered evs ∧
    (ReadData (ReadData (run (ctor opened port baud device flow parity stopBits) evs)).2).1 =
      [] := by
  have h := read_run evs (ctor opened port baud device flow parity stopBits) hev
  obtain ⟨l, o, n, hc⟩ := ctor_members opened port baud device flow parity stopBits
  have h0 : (ctor opened port baud device flow parity stopBits).data_read_ = [] := by
    rw [hc]; rfl
  rw [h0] at h
  simp only [List.nil_append] at h
  have hout : outputs (ctor opened port baud device flow parity stopBits)
      (evs ++ [Event.ReadData]) =
      outputs (ctor opened port baud device flow parity stopBits) evs ++
        [Output.vector
          (run (ctor opened port baud device flow parity stopBits) evs).data_read_] := by
    rw [outputs_append]
    simp [outputs, step, ReadData_eq]
  have hret : ∀ (a : List Output) (v : List Byte),
      returned (a ++ [Output.vector v]) = returned a ++ v := by
    intro a v
    induction a with
    | nil => simp [returned]
    | cons o os ih => rw [List.cons_append, returned_cons, ih, returned_cons o os,
        List.append_assoc]
  refine ⟨h, ReadData_eq, hout, ?_, ?_, ReadData_twice _⟩
  · rw [run_append]
    simp [run, step, ReadData_eq]
  · rw [hout, hret]
    exact h

/-- C2, on an example: `X`, `Y`, `Z` arrive with one read completion; the
`ReadData` that follows returns them and empties the buffer, and the one after
that returns nothing. -/
theorem read_stream_partition_witness :
    (∀ e ∈ [Event.readCompletion error_code [88, 89, 90]], readStream e = true) ∧
    (run (ctor true (fun _ => error_code) 9600 "COM1" 0 0 0)
      [Event.readCompletion error_code [88, 89, 90]]).data_read_ = [88, 89, 90] ∧
    outputs (ctor true (fun _ => error_code) 9600 "COM1" 0 0 0)
      ([Event.readCompletion error_code [88, 89, 90]] ++ [Event.ReadData]) =
      [Output.nothing, Output.vector [88, 89, 90]] ∧
    (run (ctor true (fun _ => error_code) 9600 "COM1" 0 0 0)
      ([Event.readCompletion error_code [88, 89, 90]] ++ [Event.ReadData])).data_read_ = [] ∧
    returned (outputs (ctor true (fun _ => error_code) 9600 "COM1" 0 0 0)
      ([Event.readCompletion error_code [88, 89, 90]] ++ [Event.ReadData])) = [88, 89, 90] ∧
    (ReadData (ReadData (run (ctor true (fun _ => error_code) 9600 "COM1" 0 0 0)
      [Event.readCompletion error_code [88, 89, 90]])).2).1 = [] :=
  ⟨by decide,
   (read_stream_partition true (fun _ => error_code) 9600 "COM1" 0 0 0
     [Event.readCompletion error_code [88, 89, 90]] (by decide)).1,
   (read_stream_partition true (fun _ => error_code) 9600 "COM1" 0 0 0
     [Event.readCompletion error_code [88, 89, 90]] (by decide)).2.2.1,
   (read_stream_partition true (fun _ => error_code) 9600 "COM1" 0 0 0
     [Event.readCompletion error_code [88, 89, 90]] (by decide)).2.2.2.1,
   (read_stream_partition true (fun _ => error_code) 9600 "COM1" 0 0 0
     [Event.readCompletion error_code [88, 89, 90]] (by decide)).2.2.2.2.1,
   (read_stream_partition true (fun _ => error_code) 9600 "COM1" 0 0 0
     [Event.readCompletion error_code [88, 89, 90]] (by decide)).2.2.2.2.2⟩

/-- C3: once `DoClose` has run with an error that is not operation-aborted
(the empty error of `Close`, or a read or write fault), `Aktive` returns false,
and it returns false after every further sequence of events; no event takes
`active_` from false back to true. -/
theorem active_flag_monotonic (s : AsioClient) (error : ErrorCode) (evs : List Event)
    (h : error.aborted = false) :
    Aktive (DoClose s error) = false ∧
    Aktive (run (DoClose s error) evs) = false ∧
    (∀ (t : AsioClient) (e : Event), t.active_ = false → (step t e).1.active_ = false) :=
  ⟨DoClose_inactive s error h, run_inactive evs _ (DoClose_inactive s error h),
    fun t e ht => step_inactive t e ht⟩

/-- C3, on an example: the client is closed, then a byte is written, a read
completes and `Close` is called again. -/
theorem active_flag_monotonic_witness :
    error_code.aborted = false ∧
    (Aktive (DoClose (ctor true (fun _ => error_code) 9600 "COM1" 0 0 0) error_code) = false ∧
     Aktive (run (DoClose (ctor true (fun _ => error_code) 9600 "COM1" 0 0 0) error_code)
       [Event.WriteOneCharacter 65, Event.runPosted, Event.readCompletion error_code [88],
         Event.Close, Event.runPosted]) = false ∧
     (∀ (t : AsioClient) (e : Event), t.active_ = false → (step t e).1.active_ = false)) :=
  ⟨rfl, active_flag_monotonic (ctor true (fun _ => error_code) 9600 "COM1" 0 0 0) error_code
    [Event.WriteOneCharacter 65, Event.runPosted, Event.readCompletion error_code [88],
      Event.Close, Event.runPosted] rfl⟩

/-- C4, as stated, fails: on the inactive client `closedWithData`, `ReadData`
returns `X` and empties the read buffer, `ReadOneCharacter` returns true with
`X`, `Purge` changes the read buffer, and `WriteOneCharacter`, once its handler
has run, has put the byte in the write queue and called `async_write`. -/
theorem inactive_calls_counterexample :
    closedWithData.active_ = false ∧
    (ReadData closedWithData).1 = [88] ∧
    (ReadData closedWithData).2.data_read_ ≠ closedWithData.data_read_ ∧
    (ReadOneCharacter closedWithData 0).1 = (true, 88) ∧
    (Purge closedWithData).data_read_ ≠ closedWithData.data_read_ ∧
    closedWithData.write_msgs_ = [] ∧
    closedWithData.async_write_calls = [] ∧
    (run closedWithData [Event.WriteOneCharacter 65, Event.runPosted]).write_msgs_ = [65] ∧
    (run closedWithData [Event.WriteOneCharacter 65, Event.runPosted]).async_write_calls =
      [some 65] := by
  decide

/-- C4, amended: on an inactive client `WriteOneCharacter`, `ReadData`,
`ReadOneCharacter` and `Purge` leave `active_` false and call neither `close`
nor `async_read_some`, but they do what they do on an active client:
`WriteOneCharacter` posts `DoWrite`, which appends the byte to the write queue
and calls `async_write` when the queue was empty; `Purge` empties both buffers;
`ReadData` returns the read buffer and empties it; `ReadOneCharacter` returns
true with the front byte and removes it.  On an empty read buffer `ReadData`
returns the empty vector, `ReadOneCharacter` returns false, and both change
nothing. -/
theorem inactive_calls (s : AsioClient) (msg : Byte) (h : s.active_ = false) :
    WriteOneCharacter s msg = { s with posted := s.posted ++ [Handler.DoWrite msg] } ∧
    (step (WriteOneCharacter s msg) Event.runPosted).1.active_ = false ∧
    (s.posted = [] →
      (step (WriteOneCharacter s msg) Event.runPosted).1 = DoWrite s msg) ∧
    (DoWrite s msg).write_msgs_ = s.write_msgs_ ++ [msg] ∧
    (DoWrite s msg).async_write_calls =
      (if s.write_msgs_ = [] then s.async_write_calls ++ [some msg]
       else s.async_write_calls) ∧
    (DoWrite s msg).active_ = false ∧
    (DoWrite s msg).close_calls = s.close_calls ∧
    (DoWrite s msg).async_read_calls = s.async_read_calls ∧
    Purge s = { s with data_read_ := [], write_msgs_ := [] } ∧
    ReadData s = (s.data_read_, { s with data_read_ := [] }) ∧
    (∀ front rest, s.data_read_ = front :: rest →
      ReadOneCharacter s msg = ((true, front), { s with data_read_ := rest })) ∧
    (s.data_read_ = [] →
      ReadData s = ([], s) ∧ ReadOneCharacter s msg = ((false, msg), s)) := by
  refine ⟨rfl, step_inactive _ _ h, ?_, ?_, ?_, ?_, ?_, ?_, rfl, ?_, ?_, ?_⟩
  · intro hp
    simp [step, WriteOneCharacter, hp, runHandler, DoWrite]
  · simp only [DoWrite, WriteStart]
    split_ifs <;> rfl
  · cases hq : s.write_msgs_ <;> simp [DoWrite, WriteStart, hq]
  · simp only [DoWrite, WriteStart]
    split_ifs <;> exact h
  · simp only [DoWrite, WriteStart]
    split_ifs <;> rfl
  · simp only [DoWrite, WriteStart]
    split_ifs <;> rfl
  · cases hd : s.data_read_ with
    | nil =>
      simp only [ReadData, hd, List.length_nil, Nat.lt_irrefl, if_false]
      congr 1
      cases s
      simp_all
    | cons b t => simp [ReadData, hd]
  · intro front rest hd
    simp [ReadOneCharacter, hd]
  · intro hd
    constructor
    · simp [ReadData, hd]
    · simp [ReadOneCharacter, hd]

/-- C4, amended, on the inactive client `closedWithData`. -/
theorem inactive_calls_witness :
    closedWithData.active_ = false ∧
    Purge closedWithData = { closedWithData with data_read_ := [], write_msgs_ := [] } ∧
    ReadData closedWithData =
      (closedWithData.data_read_, { closedWithData with data_read_ := [] }) :=
  ⟨by decide, (inactive_calls closedWithData 65 (by decide)).2.2.2.2.2.2.2.2.1,
    (inactive_calls closedWithData 65 (by decide)).2.2.2.2.2.2.2.2.2.1⟩

/-- C5, as stated, fails: when the serial port could not be opened, `Aktive`
returns true right after construction, and a `WriteOneCharacter`, once its
handler has run, has put the byte in the write queue and called `async_write`. -/
theorem open_failure_counterexample :
    notOpened.is_open = false ∧
    Aktive notOpened = true ∧
    (run notOpened [Event.WriteOneCharacter 65, Event.runPosted]).write_msgs_ = [65] ∧
    (run notOpened [Event.WriteOneCharacter 65, Event.runPosted]).async_write_calls =
      [some 65] := by
  decide

/-- C5, amended: when the serial port could not be opened, the constructor
logs "Failed to open serial port" and does nothing else: no read is started,
no option is set, the read buffer, the write queue and the `io_service` queue
are empty and nothing was written.  A `WriteOneCharacter` after that posts
`DoWrite`, and when the `io_service` runs it the byte is in the write queue and
`async_write` was called for it. -/
theorem open_failure (port : SerialOption → ErrorCode) (baud : Nat) (device : String)
    (flow parity stopBits : Int) (msg : Byte) :
    (ctor false port baud device flow parity stopBits).log =
      [("Failed to open serial port", false)] ∧
    (ctor false port baud device flow parity stopBits).async_read_calls = 0 ∧
    (ctor false port baud device flow parity stopBits).reads_outstanding = 0 ∧
    (ctor false port baud device flow parity stopBits).set_option_calls = [] ∧
    (ctor false port baud device flow parity stopBits).data_read_ = [] ∧
    (ctor false port baud device flow parity stopBits).write_msgs_ = [] ∧
    (ctor false port baud device flow parity stopBits).posted = [] ∧
    (ctor false port baud device flow parity stopBits).async_write_calls = [] ∧
    (ctor false port baud device flow parity stopBits).close_calls = 0 ∧
    (WriteOneCharacter (ctor false port baud device flow parity stopBits) msg).posted =
      [Handler.DoWrite msg] ∧
    (WriteOneCharacter (ctor false port baud device flow parity stopBits) msg).write_msgs_ =
      [] ∧
    (WriteOneCharacter (ctor false port baud device flow parity stopBits)
      msg).async_write_calls = [] ∧
    (run (ctor false port baud device flow parity stopBits)
      [Event.WriteOneCharacter msg, Event.runPosted]).write_msgs_ = [msg] ∧
    (run (ctor false port baud device flow parity stopBits)
      [Event.WriteOneCharacter msg, Event.runPosted]).async_write_calls = [some msg] := by
  have h : ctor false port baud device flow parity stopBits =
      LogMessage (members false) "Failed to open serial port" false := by
    simp [ctor, members]
  rw [h]
  simp [LogMessage, members, WriteOneCharacter, run, step, runHandler, DoWrite, WriteStart]

/-- What `Purge` does when every handler runs as one atomic event, so that
no `Purge` falls between the guarded part of `DoWrite` or `WriteComplete` and
its call of `WriteStart`: in every state `Purge` empties the read buffer and the
write queue and changes nothing else (not `active_`, not the outstanding read
and write); a `ReadData` right after it returns the empty vector; and over
every later sequence of events the bytes given to `async_write` after the
`Purge` are taken, one for one and in order, from the bytes that entered the
write queue after it (those still posted at the `Purge` and those submitted
later). -/
theorem purge_clears_buffers (s : AsioClient) (evs : List Event) :
    (Purge s).data_read_ = [] ∧ (Purge s).write_msgs_ = [] ∧
    Purge s = { s with data_read_ := [], write_msgs_ := [] } ∧
    (Purge s).active_ = s.active_ ∧
    (Purge s).reads_outstanding = s.reads_outstanding ∧
    (Purge s).writes_outstanding = s.writes_outstanding ∧
    (Purge s).async_read_calls = s.async_read_calls ∧
    (Purge s).async_write_calls = s.async_write_calls ∧
    (ReadData (Purge s)).1 = [] ∧
    (∃ sent : List Byte,
      (run (Purge s) evs).async_write_calls = s.async_write_calls ++ sent.map some ∧
      List.Sublist sent (pendingBytes s.posted ++ submitted evs)) := by
  refine ⟨rfl, rfl, rfl, rfl, rfl, rfl, rfl, rfl, by simp [ReadData, Purge], ?_⟩
  obtain ⟨done, sent, h1, h2, h3⟩ :=
    purgeInv_run s.async_write_calls evs (Purge s) (pendingBytes s.posted) (purgeInv_Purge s)
  refine ⟨sent, h2, ?_⟩
  rw [h1]
  refine h3.trans ?_
  refine List.Sublist.trans ?_ (List.sublist_append_left _ _)
  exact (List.Sublist.refl done).append (List.take_sublist 1 _)

/-- C6 fails on the code: `DoWrite` has put `A` in the write queue and
released `writeBufferLock_`, and its call of `WriteStart` is due; `A` is in the
queue and its write has not been started.  `Purge`, called by another thread at
that moment, empties the queue, and the `WriteStart` that follows calls
`async_write` on `&write_msgs_.front()` of an empty queue: a write is started
for the purged byte, on a byte that is in the queue no more.  Without the
`Purge` the same `WriteStart` writes `A`. -/
theorem purge_before_write_start :
    (slices { client := opened9600, writeStartDue := false }
      writeStartPending).writeStartDue = true ∧
    (slices { client := opened9600, writeStartDue := false }
      writeStartPending).client.write_msgs_ = [65] ∧
    (slices { client := opened9600, writeStartDue := false }
      writeStartPending).client.async_write_calls = [] ∧
    (slices { client := opened9600, writeStartDue := false }
      (writeStartPending ++ [Slice.call Event.Purge])).client.write_msgs_ = [] ∧
    (slices { client := opened9600, writeStartDue := false }
      (writeStartPending ++ [Slice.call Event.Purge])).writeStartDue = true ∧
    (slices { client := opened9600, writeStartDue := false }
      (writeStartPending ++
        [Slice.call Event.Purge, Slice.WriteStart])).client.async_write_calls = [none] ∧
    (slices { client := opened9600, writeStartDue := false }
      (writeStartPending ++
        [Slice.call Event.Purge, Slice.WriteStart])).client.writes_outstanding = 1 ∧
    (slices { client := opened9600, writeStartDue := false }
      (writeStartPending ++ [Slice.WriteStart])).client.async_write_calls = [some 65] := by
  decide

/-- C7: over every sequence of events on a constructed client, whether the
port could be opened or not, `close` is called on the serial port at most once:
`DoClose` calls it only when `active_` is true and, unless the error is
operation-aborted, leaves `active_` false, so that a later `DoClose` does not
call it again. -/
theorem close_at_most_once (opened : Bool) (port : SerialOption → ErrorCode) (baud : Nat)
    (device : String) (flow parity stopBits : Int) (evs : List Event) :
    (run (ctor opened port baud device flow parity stopBits) evs).close_calls ≤ 1 ∧
    (∀ (s : AsioClient) (error : ErrorCode),
      (DoClose s error).close_calls =
        s.close_calls + (if s.active_ && !error.aborted then 1 else 0) ∧
      (error.aborted = false → (DoClose s error).active_ = false)) ∧
    (∀ (s : AsioClient) (first second : ErrorCode), first.aborted = false →
      (DoClose (DoClose s first) second).close_calls = (DoClose s first).close_calls) := by
  refine ⟨?_, ?_, ?_⟩
  · have h0 : (ctor opened port baud device flow parity stopBits).close_calls +
        (if (ctor opened port baud device flow parity stopBits).active_ then 1 else 0) ≤ 1 := by
      obtain ⟨l, o, n, hc⟩ := ctor_members opened port baud device flow parity stopBits
      rw [hc]
      simp [members]
    have h := close_run evs _ h0
    omega
  · intro s error
    rw [DoClose_eq]
    cases ha : error.aborted <;> cases hs : s.active_ <;> simp
  · intro s first second h1
    have hi := DoClose_inactive s first h1
    rw [DoClose_eq (DoClose s first) second]
    cases second.aborted <;> simp [hi]

/-- C8: on a non-empty read buffer `ReadOneCharacter` returns true, puts the
front byte in `msg` and removes that byte only, the others keeping their order;
on an empty read buffer it returns false and leaves the buffer and `msg` as
they were.  In both cases the write queue, `active_` and everything else stay
unchanged. -/
theorem read_one_character (s : AsioClient) (msg : Byte) :
    (∀ front rest, s.data_read_ = front :: rest →
      ReadOneCharacter s msg = ((true, front), { s with data_read_ := rest })) ∧
    (s.data_read_ = [] → ReadOneCharacter s msg = ((false, msg), s)) ∧
    (ReadOneCharacter s msg).2.write_msgs_ = s.write_msgs_ ∧
    (ReadOneCharacter s msg).2.active_ = s.active_ ∧
    (ReadOneCharacter s msg).2 =
      { s with data_read_ := if (ReadOneCharacter s msg).1.1 then s.data_read_.tail
                             else s.data_read_ } := by
  cases hd : s.data_read_ with
  | nil =>
    refine ⟨?_, ?_, ?_, ?_, ?_⟩ <;> simp [ReadOneCharacter, hd]
    cases s
    simp_all
  | cons b t =>
    refine ⟨?_, ?_, ?_, ?_, ?_⟩ <;> simp [ReadOneCharacter, hd]

/-- C9: when the port is open, whatever the serial port answers to each
`set_option`, the constructor sets the five options in the order baud rate,
flow control, parity, stop bits, character size 8, with the values of the
caller; the messages logged with `debugOnly = false` are exactly one for each
option that failed, in that order; one read is started; and `active_` is
true. -/
theorem ctor_sets_all_options (port : SerialOption → ErrorCode) (baud : Nat)
    (device : String) (flow parity stopBits : Int) :
    (ctor true port baud device flow parity stopBits).set_option_calls =
      [SerialOption.baud_rate baud, SerialOption.flow_control flow,
        SerialOption.parity parity, SerialOption.stop_bits stopBits,
        SerialOption.character_size 8] ∧
    (ctor true port baud device flow parity stopBits).log.filter (fun m => !m.2) =
      ((ctorOptions baud flow parity stopBits).filter (fun o => (port o.2).failed)).map
        (fun o => (optionError o.1 (port o.2), false)) ∧
    ((ctor true port baud device flow parity stopBits).log.filter (fun m => !m.2)).length =
      ((ctorOptions baud flow parity stopBits).filter (fun o => (port o.2).failed)).length ∧
    (ctor true port baud device flow parity stopBits).async_read_calls = 1 ∧
    (ctor true port baud device flow parity stopBits).reads_outstanding = 1 ∧
    (ctor true port baud device flow parity stopBits).active_ = true := by
  have hlog : (ctor true port baud device flow parity stopBits).log.filter (fun m => !m.2) =
      ((ctorOptions baud flow parity stopBits).filter (fun o => (port o.2).failed)).map
        (fun o => (optionError o.1 (port o.2), false)) := by
    rw [ctor_opened]
    simp only [ReadStart, setAndReport_log, LogMessage, members, ctorOptions]
    cases h1 : (port (SerialOption.baud_rate baud)).failed <;>
      cases h2 : (port (SerialOption.flow_control flow)).failed <;>
      cases h3 : (port (SerialOption.parity parity)).failed <;>
      cases h4 : (port (SerialOption.stop_bits stopBits)).failed <;>
      cases h5 : (port (SerialOption.character_size 8)).failed <;>
      simp [List.filter_cons, h1, h2, h3, h4, h5]
  refine ⟨?_, hlog, by rw [hlog, List.length_map], ?_, ?_, ?_⟩
  · rw [ctor_opened]
    simp [ReadStart, setAndReport_calls, LogMessage, members]
  · rw [ctor_opened]
    simp [ReadStart, setAndReport_rest, LogMessage, members]
  · rw [ctor_opened]
    simp [ReadStart, setAndReport_rest, LogMessage, members]
  · rw [ctor_opened]
    simp [ReadStart, setAndReport_rest, LogMessage, members]

/-- C10 fails on the code: after `purgeDuringWrite` two writes are
outstanding, the second one started while the first had not completed; the
completion of the first write then removes `B`, whose own write is still
outstanding, from the write queue. -/
theorem purge_breaks_serialization :
    feasible opened9600 (purgeDuringWrite ++ [Event.writeCompletion error_code]) = true ∧
    (run opened9600 [Event.WriteOneCharacter 65, Event.runPosted]).writes_outstanding = 1 ∧
    (run opened9600 purgeDuringWrite).writes_outstanding = 2 ∧
    (run opened9600 purgeDuringWrite).async_write_calls = [some 65, some 66] ∧
    (run opened9600 purgeDuringWrite).write_msgs_ = [66] ∧
    (run opened9600 (purgeDuringWrite ++ [Event.writeCompletion error_code])).write_msgs_ =
      [] ∧
    (run opened9600
      (purgeDuringWrite ++ [Event.writeCompletion error_code])).writes_outstanding = 1 := by
  decide

/-- C12: `DoClose` treats its error in three ways.  For operation-aborted
it does nothing: the object, with its log, its `close` calls, `active_`, the
read buffer and the write queue, is unchanged.  For another non-empty error it
logs one message, the text of the error, with `debugOnly = false`; for the
empty error it logs nothing.  In these two cases it calls `close` exactly when
`active_` was true, ends with `active_ = false` and leaves the read buffer and
the write queue alone. -/
theorem DoClose_classifies (s : AsioClient) (error : ErrorCode) :
    (error.aborted = true → DoClose s error = s) ∧
    (error.aborted = false → error.failed = true →
      (DoClose s error).log = s.log ++ [(error.message, false)]) ∧
    (error.aborted = false → error.failed = false → (DoClose s error).log = s.log) ∧
    (error.aborted = false →
      (DoClose s error).close_calls = s.close_calls + (if s.active_ then 1 else 0) ∧
      (DoClose s error).is_open = (if s.active_ then false else s.is_open) ∧
      (DoClose s error).active_ = false ∧
      (DoClose s error).data_read_ = s.data_read_ ∧
      (DoClose s error).write_msgs_ = s.write_msgs_) := by
  rw [DoClose_eq]
  refine ⟨?_, ?_, ?_, ?_⟩
  · intro h; simp [h]
  · intro h1 h2; simp [h1, h2]
  · intro h1 h2; simp [h1, h2]
  · intro h
    cases hs : s.active_ <;> simp [h, hs]

/-- C14: a write completion with a non-empty error logs
"error in WriteComplete: " and calls `DoClose` with that error; the write queue
keeps its front byte, no `async_write` is called, and when the error is not
operation-aborted the client is inactive afterwards. -/
theorem write_error_closes (s : AsioClient) (error : ErrorCode) (h : error.failed = true) :
    WriteComplete s error = DoClose (LogMessage s "error in WriteComplete: " true) error ∧
    (∃ rest, (WriteComplete s error).log =
      s.log ++ ("error in WriteComplete: ", true) :: rest) ∧
    (WriteComplete s error).write_msgs_ = s.write_msgs_ ∧
    (WriteComplete s error).async_write_calls = s.async_write_calls ∧
    (WriteComplete s error).writes_outstanding = s.writes_outstanding ∧
    (step s (Event.writeCompletion error)).1.write_msgs_ = s.write_msgs_ ∧
    (step s (Event.writeCompletion error)).1.async_write_calls = s.async_write_calls ∧
    (error.aborted = false → (WriteComplete s error).active_ = false) := by
  have hw : ∀ t : AsioClient, WriteComplete t error =
      DoClose (LogMessage t "error in WriteComplete: " true) error := by
    intro t
    simp [WriteComplete, h]
  refine ⟨hw s, ?_, ?_, ?_, ?_, ?_, ?_, ?_⟩
  · rw [hw, DoClose_eq]
    cases error.aborted
    · exact ⟨[(error.message, false)], by simp [LogMessage, h]⟩
    · exact ⟨[], by simp [LogMessage]⟩
  · rw [hw, DoClose_eq]; split_ifs <;> rfl
  · rw [hw, DoClose_eq]; split_ifs <;> rfl
  · rw [hw, DoClose_eq]; split_ifs <;> rfl
  · simp only [step]; rw [hw, DoClose_eq]; split_ifs <;> rfl
  · simp only [step]; rw [hw, DoClose_eq]; split_ifs <;> rfl
  · intro ha
    rw [hw]
    exact DoClose_inactive _ error ha

/-- C14, on an example: `A` is being written and its write fails. -/
theorem write_error_closes_witness :
    ioError.failed = true ∧
    (WriteComplete (run opened9600 [Event.WriteOneCharacter 65, Event.runPosted])
        ioError).write_msgs_ = [65] ∧
    (WriteComplete (run opened9600 [Event.WriteOneCharacter 65, Event.runPosted])
        ioError).async_write_calls = [some 65] ∧
    (WriteComplete (run opened9600 [Event.WriteOneCharacter 65, Event.runPosted])
        ioError).active_ = false :=
  ⟨by decide,
   (write_error_closes (run opened9600 [Event.WriteOneCharacter 65, Event.runPosted])
      ioError (by decide)).2.2.1,
   (write_error_closes (run opened9600 [Event.WriteOneCharacter 65, Event.runPosted])
      ioError (by decide)).2.2.2.1,
   (write_error_closes (run opened9600 [Event.WriteOneCharacter 65, Event.runPosted])
      ioError (by decide)).2.2.2.2.2.2.2 (by decide)⟩

/-- C15: with every handler run as one atomic step, each call of `WriteStart`
finds a byte at the front of `write_msgs_`.  `DoWrite` calls it after its
`push_back` and `WriteComplete` only when `anythingThere` is true, so in every
state every event adds to the calls of `async_write` only calls on a byte of
the queue; and after every sequence of events on a constructed client no call
of `async_write` was made on an empty queue. -/
theorem write_start_front_defined (opened : Bool) (port : SerialOption → ErrorCode)
    (baud : Nat) (device : String) (flow parity stopBits : Int) (evs : List Event) :
    (∀ w ∈ (run (ctor opened port baud device flow parity stopBits) evs).async_write_calls,
      w ≠ none) ∧
    (∀ (s : AsioClient) (e : Event),
      ∃ l : List Byte, (step s e).1.async_write_calls = s.async_write_calls ++ l.map some) ∧
    (∀ (s : AsioClient) (msg : Byte),
      (WriteStart { s with write_msgs_ := s.write_msgs_ ++ [msg] }).async_write_calls =
        s.async_write_calls ++ [some ((s.write_msgs_ ++ [msg]).headD msg)]) ∧
    (∀ (s : AsioClient) (b : Byte) (t : List Byte), s.write_msgs_ = b :: t →
      (WriteStart s).async_write_calls = s.async_write_calls ++ [some b]) := by
  refine ⟨?_, step_writes_defined, ?_, ?_⟩
  · obtain ⟨l, h⟩ := run_writes_defined evs (ctor opened port baud device flow parity stopBits)
    obtain ⟨lg, o, n, hc⟩ := ctor_members opened port baud device flow parity stopBits
    have h0 : (ctor opened port baud device flow parity stopBits).async_write_calls = [] := by
      rw [hc]; rfl
    rw [h, h0]
    intro w hw
    simp only [List.nil_append, List.mem_map] at hw
    obtain ⟨b, _, hb⟩ := hw
    rw [← hb]
    exact Option.some_ne_none b
  · intro s msg
    cases hq : s.write_msgs_ <;> simp [WriteStart, hq]
  · intro s b t hq
    simp [WriteStart, hq]

/-- C13: after a successful construction one read is outstanding, and it
stays so in every state reached by events that can happen and whose read
completions all succeed.  A successful `ReadComplete` appends the first
`bytes_transferred` bytes of `read_msg_`, in order, to `data_read_` and calls
`async_read_some` once; in the sequence of events these are the bytes the
serial port delivered.  A `ReadComplete` with an error is `DoClose` with that
error and calls no `async_read_some`; after it no read is outstanding, and
whatever happens later no read is started again. -/
theorem read_pipeline_one_outstanding (port : SerialOption → ErrorCode) (baud : Nat)
    (device : String) (flow parity stopBits : Int) (evs more : List Event)
    (error : ErrorCode) (data : List Byte)
    (hev : ∀ e ∈ evs, readsSucceed e = true)
    (hf : feasible (ctor true port baud device flow parity stopBits) evs = true)
    (herr : error.failed = true)
    (hmore : feasible (run (ctor true port baud device flow parity stopBits) evs)
      (Event.readCompletion error data :: more) = true) :
    (run (ctor true port baud device flow parity stopBits) evs).reads_outstanding = 1 ∧
    (run (ctor true port baud device flow parity stopBits) evs).read_msg_.length =
      max_read_length ∧
    (∀ (s : AsioClient) (ok : ErrorCode) (bytes_transferred : Nat), ok.failed = false →
      bytes_transferred ≤ s.read_msg_.length →
      (ReadComplete s ok bytes_transferred).data_read_ =
        s.data_read_ ++ s.read_msg_.take bytes_transferred ∧
      (ReadComplete s ok bytes_transferred).async_read_calls = s.async_read_calls + 1 ∧
      (ReadComplete s ok bytes_transferred).reads_outstanding = s.reads_outstanding + 1) ∧
    (∀ (ok : ErrorCode) (received : List Byte), ok.failed = false →
      received.length ≤ max_read_length →
      (step (run (ctor true port baud device flow parity stopBits) evs)
        (Event.readCompletion ok received)).1.data_read_ =
        (run (ctor true port baud device flow parity stopBits) evs).data_read_ ++ received ∧
      (step (run (ctor true port baud device flow parity stopBits) evs)
        (Event.readCompletion ok received)).1.reads_outstanding = 1) ∧
    (∀ (s : AsioClient) (bytes_transferred : Nat),
      ReadComplete s error bytes_transferred = DoClose s error ∧
      (ReadComplete s error bytes_transferred).async_read_calls = s.async_read_calls ∧
      (ReadComplete s error bytes_transferred).reads_outstanding = s.reads_outstanding) ∧
    (run (ctor true port baud device flow parity stopBits)
      (evs ++ [Event.readCompletion error data])).reads_outstanding = 0 ∧
    (run (ctor true port baud device flow parity stopBits)
      (evs ++ [Event.readCompletion error data])).async_read_calls =
      (run (ctor true port baud device flow parity stopBits) evs).async_read_calls ∧
    (run (ctor true port baud device flow parity stopBits)
      (evs ++ Event.readCompletion error data :: more)).async_read_calls =
      (run (ctor true port baud device flow parity stopBits) evs).async_read_calls := by
  have hc : (ctor true port baud device flow parity stopBits).reads_outstanding = 1 ∧
      (ctor true port baud device flow parity stopBits).read_msg_.length = max_read_length := by
    rw [ctor_opened]
    simp [ReadStart, setAndReport_rest, LogMessage, members]
    simp only [setAndReport, setOption, LogMessage]
    split_ifs <;> simp
  obtain ⟨h1, h2⟩ := one_read_run evs _ hev hf hc.1 hc.2
  have hfail : ∀ t : AsioClient,
      (step t (Event.readCompletion error data)).1.reads_outstanding =
        t.reads_outstanding - 1 ∧
      (step t (Event.readCompletion error data)).1.async_read_calls = t.async_read_calls := by
    intro t
    simp [step, ReadComplete, herr, DoClose_reads, receive]
  simp only [feasible, Bool.and_eq_true] at hmore
  have h0 : (step (run (ctor true port baud device flow parity stopBits) evs)
      (Event.readCompletion error data)).1.reads_outstanding = 0 := by
    rw [(hfail _).1, h1]
  obtain ⟨_, n2⟩ := no_read_run more _ hmore.2 h0
  refine ⟨h1, h2, ?_, ?_, ?_, ?_, ?_, ?_⟩
  · intro s ok n hok hn
    have ht := range_map_take s.read_msg_ n hn
    simp [ReadComplete, hok, ReadStart, pushReadBytes_eq]
    simpa using ht
  · intro ok received hok hlen
    refine ⟨ReadComplete_data_read _ ok received hok hlen, ?_⟩
    simp [step, ReadComplete, hok, ReadStart, receive, h1]
  · intro s n
    have hd : ReadComplete s error n = DoClose s error := by simp [ReadComplete, herr]
    rw [hd]
    exact ⟨rfl, (DoClose_reads s error).2.1, (DoClose_reads s error).1⟩
  · rw [run_append]
    exact h0
  · rw [run_append]
    exact (hfail _).2
  · rw [run_append]
    simp only [run]
    rw [n2]
    exact (hfail _).2

/-- C13, on an example: `X` arrives and is read, then a read fails, and
afterwards `A` is written. -/
theorem read_pipeline_one_outstanding_witness :
    (∀ e ∈ [Event.readCompletion error_code [88], Event.ReadData],
      readsSucceed e = true) ∧
    feasible opened9600 [Event.readCompletion error_code [88], Event.ReadData] = true ∧
    ioError.failed = true ∧
    feasible (run opened9600 [Event.readCompletion error_code [88], Event.ReadData])
      (Event.readCompletion ioError [] ::
        [Event.WriteOneCharacter 65, Event.runPosted]) = true ∧
    (run opened9600
      [Event.readCompletion error_code [88], Event.ReadData]).reads_outstanding = 1 ∧
    (run opened9600
      ([Event.readCompletion error_code [88], Event.ReadData] ++
        Event.readCompletion ioError [] ::
          [Event.WriteOneCharacter 65, Event.runPosted])).async_read_calls = 2 :=
  ⟨by decide, by decide, by decide, by decide,
   (read_pipeline_one_outstanding (fun _ => error_code) 9600 "COM1" 0 0 0
      [Event.readCompletion error_code [88], Event.ReadData]
      [Event.WriteOneCharacter 65, Event.runPosted] ioError []
      (by decide) (by decide) (by decide) (by decide)).1,
   (read_pipeline_one_outstanding (fun _ => error_code) 9600 "COM1" 0 0 0
      [Event.readCompletion error_code [88], Event.ReadData]
      [Event.WriteOneCharacter 65, Event.runPosted] ioError []
      (by decide) (by decide) (by decide) (by decide)).2.2.2.2.2.2.2⟩

end AsioClient

end SerialManager
